import Mathlib

/-!
Shallow embedding of the multigrid core of the gpu-solve repository
(CPU back-end: `src/cpu/CpuSolver.cpp`, `src/Vector3.cpp`, `src/main.cpp`).

Modelling conventions:
* `double` values are modelled as rational numbers `ℚ`; the transcendental
  functions `exp` and `sqrt` used by the kernels are carried as abstract
  function parameters (`expf`, `sqrtf`) in the grid data, since their exact
  values never matter to the verified properties.
* A `Vector3` buffer, as used by the solver kernels, is modelled by its
  in-bounds behaviour: a total function `ℤ → ℤ → ℤ → ℚ` (the `Field3` type
  below).  Writing a cell is pointwise function update.  Every kernel loop
  of the source writes pairwise distinct cells and never reads a cell that
  the same loop nest has written, so a loop nest is embedded as a single
  pointwise definition guarded by the loop bounds.
* The flat-buffer layout of `Vector3.cpp` (flat index plus bounds
  assertion) is modelled separately and faithfully in namespace `Flat`.
* Machine-integer loop counters are `ℤ`/`ℕ`; all loop ranges of the source
  are non-negative, so no wrap-around is modelled.
-/

/-- A three-dimensional grid of values, by its in-bounds observable
behaviour: cell `(x,y,z)` holds `F x y z`. -/
def Field3 : Type := ℤ → ℤ → ℤ → ℚ

namespace Field3

/-- Pointwise fill; models `Vector3::fill`.  Modelled from the spec:
`Vector3.h` is not in the sources; spec §4.1 lists `fill(val)` as
elementwise fill of the whole buffer. -/
def fill (c : ℚ) : Field3 := fun _ _ _ => c

/-- Elementwise addition; models `Vector3::operator+=`.  Modelled from the
spec: `Vector3.h` is not in the sources; spec §4.1 lists `+=` as
elementwise addition over equal-shaped fields. -/
def add (a b : Field3) : Field3 := fun x y z => a x y z + b x y z

/-- Elementwise subtraction; models `Vector3::operator-=`.  Modelled from
the spec: `Vector3.h` is not in the sources; spec §4.1 lists `-=` as
elementwise subtraction over equal-shaped fields. -/
def sub (a b : Field3) : Field3 := fun x y z => a x y z - b x y z

end Field3

/-- The stencil table: weights and integer offsets, as read by
`main.cpp` into `gridParams.stencil` (`values[i]`, `offsets[i]`). -/
structure Stencil where
  values : List ℚ
  offsets : List (ℤ × ℤ × ℤ)

namespace Stencil

/-- Accessor `getXOffset(i)`. -/
def getXOffset (s : Stencil) (i : ℕ) : ℤ := (s.offsets.getD i (0, 0, 0)).1

/-- Accessor `getYOffset(i)`. -/
def getYOffset (s : Stencil) (i : ℕ) : ℤ := (s.offsets.getD i (0, 0, 0)).2.1

/-- Accessor `getZOffset(i)`. -/
def getZOffset (s : Stencil) (i : ℕ) : ℤ := (s.offsets.getD i (0, 0, 0)).2.2

end Stencil

/-- One level of the hierarchy (`CpuGridData::LevelData`): the interior
extent `levelDim`, the mesh spacing `h`, and the five fields. -/
structure LevelData where
  levelDim : ℕ × ℕ × ℕ
  h : ℚ
  v : Field3
  f : Field3
  r : Field3
  e : Field3
  restV : Field3

/-- Interior-point predicate for a level of interior extent `d`:
`1 ≤ x < d.1 + 1` and likewise for `y`, `z` — exactly the loop ranges of
the solver kernels (`for x = 1; x < levelDim[i]+1`). -/
def isInterior (d : ℕ × ℕ × ℕ) (x y z : ℤ) : Prop :=
  (1 ≤ x ∧ x < (d.1 : ℤ) + 1) ∧ (1 ≤ y ∧ y < (d.2.1 : ℤ) + 1) ∧
    (1 ≤ z ∧ z < (d.2.2 : ℤ) + 1)

instance (d : ℕ × ℕ × ℕ) (x y z : ℤ) : Decidable (isInterior d x y z) := by
  unfold isInterior; infer_instance

/-- The grid data handed to the solver (`CpuGridData`), holding the shared
solver parameters (read from configuration by `main.cpp`) and the level
sequence.  Levels are modelled as a total function `ℕ → LevelData`
together with the level count `numLevels`; `expf` and `sqrtf` are the
abstract models of the C `exp` and `sqrt` functions. -/
structure CpuGridData where
  maxiter : ℕ
  tol : ℚ
  isLinear : Bool
  preSmoothing : ℕ
  postSmoothing : ℕ
  omega : ℚ
  gamma : ℚ
  stencil : Stencil
  numLevels : ℕ
  levels : ℕ → LevelData
  expf : ℚ → ℚ
  sqrtf : ℚ → ℚ

namespace CpuGridData

/-- Accessor `grid.getLevel(i)`. -/
def getLevel (g : CpuGridData) (l : ℕ) : LevelData := g.levels l

/-- Replace level `l` of the hierarchy (in-place mutation of
`grid.getLevel(l)` in the source). -/
def setLevel (g : CpuGridData) (l : ℕ) (L : LevelData) : CpuGridData :=
  { g with levels := fun i => if i = l then L else g.levels i }

@[simp] theorem getLevel_setLevel_same (g : CpuGridData) (l : ℕ) (L : LevelData) :
    (g.setLevel l L).getLevel l = L := by
  simp [getLevel, setLevel]

@[simp] theorem getLevel_setLevel_ne (g : CpuGridData) (l k : ℕ) (L : LevelData)
    (h : k ≠ l) : (g.setLevel l L).getLevel k = g.getLevel k := by
  simp [getLevel, setLevel, h]

end CpuGridData

namespace CpuSolver

/-- The stencil part of the operator at one point:
`(Σᵢ wᵢ · v[x+dxᵢ, y+dyᵢ, z+dzᵢ]) / h²`, the value called `stencilsum`
after the division by `h*h` in `compResidual` / `applyStencil`. -/
def stencilSum (st : Stencil) (h : ℚ) (v : Field3) (x y z : ℤ) : ℚ :=
  (∑ i ∈ Finset.range st.values.length,
      st.values.getD i 0 *
        v (x + st.getXOffset i) (y + st.getYOffset i) (z + st.getZOffset i)) /
    (h * h)

/-- The residual value computed for one interior point of `compResidual`:
`f[x,y,z] - stencilsum` where `stencilsum` is the divided stencil sum plus,
in nonlinear mode, the term `gamma * v * exp(v)`. -/
def residualAt (g : CpuGridData) (lvl : LevelData) (x y z : ℤ) : ℚ :=
  lvl.f x y z -
    (stencilSum g.stencil lvl.h lvl.v x y z +
      (if g.isLinear then 0 else g.gamma * lvl.v x y z * g.expf (lvl.v x y z)))

/-- The `r` field produced by the loop nest of `CpuSolver::compResidual`:
interior cells receive `residualAt`, all other cells keep their value. -/
def residualField (g : CpuGridData) (lvl : LevelData) : Field3 := fun x y z =>
  if isInterior lvl.levelDim x y z then residualAt g lvl x y z else lvl.r x y z

/-- The accumulated sum of `r*r` over all interior points of the level
(the total gathered in the `shards` array of `compResidual`). -/
def residualSumSq (g : CpuGridData) (lvl : LevelData) : ℚ :=
  ∑ x ∈ Finset.Icc (1 : ℤ) lvl.levelDim.1,
    ∑ y ∈ Finset.Icc (1 : ℤ) lvl.levelDim.2.1,
      ∑ z ∈ Finset.Icc (1 : ℤ) lvl.levelDim.2.2,
        residualAt g lvl x y z * residualAt g lvl x y z

/-- `CpuSolver::compResidual(grid, levelNum)`: writes the residual into the
level's `r` field and returns `sqrt` of the accumulated sum of squares. -/
def compResidual (g : CpuGridData) (l : ℕ) : CpuGridData × ℚ :=
  let lvl := g.getLevel l
  (g.setLevel l { lvl with r := residualField g lvl },
    g.sqrtf (residualSumSq g lvl))

/-- The `v` field produced by one Jacobi update sweep (the loop nest after
`compResidual` inside `CpuSolver::jacobi`), with `alpha = h²/w₀` and
`preFac = w₀/h²` where `w₀ = stencil.values[0]`. -/
def jacobiUpdateField (g : CpuGridData) (lvl : LevelData) : Field3 :=
  fun x y z =>
    if isInterior lvl.levelDim x y z then
      if g.isLinear then
        lvl.v x y z +
          g.omega * ((lvl.h * lvl.h) / g.stencil.values.getD 0 0 * lvl.r x y z)
      else
        lvl.v x y z +
          g.omega * (lvl.r x y z /
            (g.stencil.values.getD 0 0 / (lvl.h * lvl.h) +
              g.gamma * (1 + lvl.v x y z) * g.expf (lvl.v x y z)))
    else lvl.v x y z

/-- One sweep of `CpuSolver::jacobi`: recompute the residual, then update
every interior `v`. -/
def jacobiSweep (g : CpuGridData) (l : ℕ) : CpuGridData :=
  let g1 := (compResidual g l).1
  let lvl := g1.getLevel l
  g1.setLevel l { lvl with v := jacobiUpdateField g1 lvl }

/-- `CpuSolver::jacobi(grid, levelNum, maxiter)`: `n` sweeps in order. -/
def jacobi (g : CpuGridData) (l : ℕ) : ℕ → CpuGridData
  | 0 => g
  | n + 1 => jacobiSweep (jacobi g l n) l

/-- The `r` field produced by the loop nest of `CpuSolver::applyStencil`:
interior cells receive the stencil sum of `vIn` plus the (unconditional)
nonlinear term; other cells keep their value. -/
def applyStencilField (st : Stencil) (gam : ℚ) (ex : ℚ → ℚ)
    (dims : ℕ × ℕ × ℕ) (h : ℚ) (vIn rOld : Field3) : Field3 := fun x y z =>
  if isInterior dims x y z then
    stencilSum st h vIn x y z + gam * vIn x y z * ex (vIn x y z)
  else rOld x y z

/-- `CpuSolver::applyStencil(grid, levelNum, v)`: stores `A(vIn)` in the
level's `r` field (nonlinear term always included). -/
def applyStencil (g : CpuGridData) (l : ℕ) (vIn : Field3) : CpuGridData :=
  let lvl := g.getLevel l
  g.setLevel l
    { lvl with
      r := applyStencilField g.stencil g.gamma g.expf lvl.levelDim lvl.h vIn
        lvl.r }

/-- The per-axis restriction weight table of `CpuSolver::restrict`:
`fac = 0.125 * ((2-|ii|)/2) * ((2-|jj|)/2) * ((2-|kk|)/2)`. -/
def restrictFac (ii jj kk : ℤ) : ℚ :=
  (1 / 8) * ((2 - |(ii : ℚ)|) / 2) * ((2 - |(jj : ℚ)|) / 2) *
    ((2 - |(kk : ℚ)|) / 2)

/-- `CpuSolver::restrict(fine, coarse)` where `cnx`,`cny`,`cnz` are the
padded dimensions of the coarse buffer (`coarse.getXdim()` etc.): every
coarse cell with `1 ≤ x < cnx-1` (and likewise `y`, `z`) receives the
27-point weighted sum of the fine field around `(2x, 2y, 2z)`; all other
cells keep their value. -/
def restrict3 (cnx cny cnz : ℕ) (fine coarse : Field3) : Field3 :=
  fun x y z =>
    if (1 ≤ x ∧ x < (cnx : ℤ) - 1) ∧ (1 ≤ y ∧ y < (cny : ℤ) - 1) ∧
        (1 ≤ z ∧ z < (cnz : ℤ) - 1) then
      ∑ ii ∈ ({-1, 0, 1} : Finset ℤ), ∑ jj ∈ ({-1, 0, 1} : Finset ℤ),
        ∑ kk ∈ ({-1, 0, 1} : Finset ℤ),
          restrictFac ii jj kk * fine (2 * x + ii) (2 * y + jj) (2 * z + kk)
    else coarse x y z

/-- First pass of `CpuSolver::interpolate` (`// prepare`): every cell with
all coordinates even, `0 ≤ x` and `x < nx-1` (likewise `y`, `z`), receives
the coarse value at the halved coordinates; other cells keep their value.
`nx`,`ny`,`nz` are the padded dimensions of the fine buffer. -/
def injectPass (nx ny nz : ℕ) (coarse e : Field3) : Field3 := fun x y z =>
  if (0 ≤ x ∧ x % 2 = 0 ∧ x < (nx : ℤ) - 1) ∧
      (0 ≤ y ∧ y % 2 = 0 ∧ y < (ny : ℤ) - 1) ∧
      (0 ≤ z ∧ z % 2 = 0 ∧ z < (nz : ℤ) - 1) then
    coarse (x / 2) (y / 2) (z / 2)
  else e x y z

/-- Second pass (`// Interpolate in x-direction`): the loop writes cell
`(x+1, y, z)` for even `x` with `x+2 < nx` and even `y < ny`, `z < nz`;
written cells are exactly those with odd `x`, `1 ≤ x`, `x+1 < nx`. -/
def xPass (nx ny nz : ℕ) (e : Field3) : Field3 := fun x y z =>
  if (1 ≤ x ∧ x % 2 = 1 ∧ x + 1 < (nx : ℤ)) ∧
      (0 ≤ y ∧ y % 2 = 0 ∧ y < (ny : ℤ)) ∧
      (0 ≤ z ∧ z % 2 = 0 ∧ z < (nz : ℤ)) then
    (1 / 2) * e (x - 1) y z + (1 / 2) * e (x + 1) y z
  else e x y z

/-- Third pass (`// Interpolate in y-direction`): writes `(x, y+1, z)` for
every `x < nx`, even `y` with `y+2 < ny`, and even `z < nz`. -/
def yPass (nx ny nz : ℕ) (e : Field3) : Field3 := fun x y z =>
  if (0 ≤ x ∧ x < (nx : ℤ)) ∧ (1 ≤ y ∧ y % 2 = 1 ∧ y + 1 < (ny : ℤ)) ∧
      (0 ≤ z ∧ z % 2 = 0 ∧ z < (nz : ℤ)) then
    (1 / 2) * e x (y - 1) z + (1 / 2) * e x (y + 1) z
  else e x y z

/-- Fourth pass (`// Interpolate in z-direction`): writes `(x, y, z+1)` for
every `x < nx`, `y < ny`, and even `z` with `z+2 < nz`. -/
def zPass (nx ny nz : ℕ) (e : Field3) : Field3 := fun x y z =>
  if (0 ≤ x ∧ x < (nx : ℤ)) ∧ (0 ≤ y ∧ y < (ny : ℤ)) ∧
      (1 ≤ z ∧ z % 2 = 1 ∧ z + 1 < (nz : ℤ)) then
    (1 / 2) * e x y (z - 1) + (1 / 2) * e x y (z + 1)
  else e x y z

/-- The four passes of `CpuSolver::interpolate` in their source order. -/
def interpolate3 (nx ny nz : ℕ) (coarse e : Field3) : Field3 :=
  zPass nx ny nz (yPass nx ny nz (xPass nx ny nz (injectPass nx ny nz coarse e)))

/-- Padded buffer dimensions of a level: `levelDim + 2` per axis (every
field of a level has this extent; spec §3). -/
def paddedDim (lvl : LevelData) : ℕ × ℕ × ℕ :=
  (lvl.levelDim.1 + 2, lvl.levelDim.2.1 + 2, lvl.levelDim.2.2 + 2)

/-- `CpuSolver::interpolate(grid, level)`: interpolates level `l+1`'s `v`
into level `l`'s `e`. -/
def interpolate (g : CpuGridData) (l : ℕ) : CpuGridData :=
  let coarse := (g.getLevel (l + 1)).v
  let lvl := g.getLevel l
  g.setLevel l
    { lvl with
      e := interpolate3 (paddedDim lvl).1 (paddedDim lvl).2.1
        (paddedDim lvl).2.2 coarse lvl.e }

/-- One iteration of the downward leg of `CpuSolver::vcycle` for level `i`:
presmoothing, residual, restriction of `r` into the next level's `f`, and
the linear / FAS branch. -/
def vcycleDownStep (g : CpuGridData) (i : ℕ) : CpuGridData :=
  let g1 := jacobi g i g.preSmoothing
  let g2 := (compResidual g1 i).1
  let nextLvl := g2.getLevel (i + 1)
  let cd := paddedDim nextLvl
  let g3 := g2.setLevel (i + 1)
    { nextLvl with f := restrict3 cd.1 cd.2.1 cd.2.2 (g2.getLevel i).r nextLvl.f }
  if g3.isLinear then
    g3.setLevel (i + 1) { g3.getLevel (i + 1) with v := Field3.fill 0 }
  else
    let nl := g3.getLevel (i + 1)
    let nl2 :=
      { nl with
        restV := restrict3 cd.1 cd.2.1 cd.2.2 (g3.getLevel i).v nl.restV,
        v := restrict3 cd.1 cd.2.1 cd.2.2 (g3.getLevel i).v nl.v }
    let g4 := g3.setLevel (i + 1) nl2
    let g5 := applyStencil g4 (i + 1) ((g4.getLevel (i + 1)).restV)
    let nl3 := g5.getLevel (i + 1)
    g5.setLevel (i + 1) { nl3 with f := Field3.add nl3.f nl3.r }

/-- One iteration of the upward leg of `CpuSolver::vcycle` for level `i`
(`i` runs from `numLevels-1` down to `1`): FAS correction, interpolation
into level `i-1`'s `e`, coarse-grid correction `v += e`, postsmoothing. -/
def vcycleUpStep (g : CpuGridData) (i : ℕ) : CpuGridData :=
  let g1 :=
    if g.isLinear then g
    else
      let lvl := g.getLevel i
      g.setLevel i { lvl with v := Field3.sub lvl.v lvl.restV }
  let g2 := interpolate g1 (i - 1)
  let prev := g2.getLevel (i - 1)
  let g3 := g2.setLevel (i - 1) { prev with v := Field3.add prev.v prev.e }
  jacobi g3 (i - 1) g3.postSmoothing

/-- `CpuSolver::vcycle(grid)`: downward leg over levels `0 … L-2`, deep
smoothing on the coarsest level, upward leg over levels `L-1 … 1`, and the
final residual of level `0`. -/
def vcycle (g : CpuGridData) : CpuGridData × ℚ :=
  let gd := (List.range (g.numLevels - 1)).foldl vcycleDownStep g
  let gc := jacobi gd (gd.numLevels - 1) (gd.preSmoothing + gd.postSmoothing)
  let gu := (((List.range (gc.numLevels - 1)).map (· + 1)).reverse).foldl
    vcycleUpStep gc
  compResidual gu 0

/-- The iteration loop of `CpuSolver::solve`: `n` V-cycles, collecting the
residual norm printed at each iteration. -/
def solveLoop (g : CpuGridData) : ℕ → CpuGridData × List ℚ
  | 0 => (g, [])
  | n + 1 =>
    let p := vcycle g
    let q := solveLoop p.1 n
    (q.1, p.2 :: q.2)

/-- `CpuSolver::solve(grid)`: computes and prints the initial residual of
level `0`, then runs `maxiter` V-cycles printing each residual norm.  The
returned list is the sequence of printed norms (initial one first). -/
def solve (g : CpuGridData) : CpuGridData × List ℚ :=
  let p := compResidual g 0
  let q := solveLoop p.1 g.maxiter
  (q.1, p.2 :: q.2)

end CpuSolver

namespace Flat

/-- The flat-buffer `Vector3` of `src/Vector3.cpp`: extents `dims` and the
value buffer `values` (the constructor zero-fills `x*y*z` entries). -/
structure Vector3 where
  dims0 : ℕ
  dims1 : ℕ
  dims2 : ℕ
  values : List ℚ

/-- `Vector3::Vector3(x, y, z)`: `values.resize(x*y*z)` zero-fills. -/
def Vector3.make (x y z : ℕ) : Vector3 :=
  ⟨x, y, z, List.replicate (x * y * z) 0⟩

/-- The flattened index `(z * dims[0] * dims[1]) + (y * dims[0]) + x` used
by `Vector3::set` and `Vector3::get`. -/
def Vector3.idx (a : Vector3) (x y z : ℕ) : ℕ :=
  z * a.dims0 * a.dims1 + y * a.dims0 + x

/-- The bounds assertion of `Vector3::set` / `Vector3::get`:
`assert(idx < values.size())`. -/
def Vector3.assertOk (a : Vector3) (x y z : ℕ) : Prop :=
  a.idx x y z < a.values.length

instance (a : Vector3) (x y z : ℕ) : Decidable (a.assertOk x y z) := by
  unfold Vector3.assertOk; infer_instance

/-- `Vector3::set(x, y, z, val)`: stores at the flattened index. -/
def Vector3.set (a : Vector3) (x y z : ℕ) (val : ℚ) : Vector3 :=
  { a with values := a.values.set (a.idx x y z) val }

/-- `Vector3::get(x, y, z)`: reads the flattened index. -/
def Vector3.get (a : Vector3) (x y z : ℕ) : ℚ :=
  a.values.getD (a.idx x y z) 0

end Flat

/-- Constants of the parallel reduction in `CpuSolver::compResidual`:
`CACHE_LINE_SIZE = 64`. -/
def CACHE_LINE_SIZE : ℕ := 64

/-- `THREAD_OFFSET = CACHE_LINE_SIZE / sizeof(double)` with
`sizeof(double) = 8`. -/
def THREAD_OFFSET : ℕ := CACHE_LINE_SIZE / 8

/-- Size of the `shards` vector: `16 * THREAD_OFFSET` doubles. -/
def shardsSize : ℕ := 16 * THREAD_OFFSET

/-- The slot index used by thread `tid`:
`omp_rank = omp_get_thread_num() * THREAD_OFFSET`. -/
def shardIndex (tid : ℕ) : ℕ := tid * THREAD_OFFSET

section FrameLemmas

open CpuSolver

variable (g : CpuGridData) (l k : ℕ) (L : LevelData)

@[simp] theorem setLevel_isLinear : (g.setLevel l L).isLinear = g.isLinear := rfl
@[simp] theorem setLevel_omega : (g.setLevel l L).omega = g.omega := rfl
@[simp] theorem setLevel_gamma : (g.setLevel l L).gamma = g.gamma := rfl
@[simp] theorem setLevel_stencil : (g.setLevel l L).stencil = g.stencil := rfl
@[simp] theorem setLevel_expf : (g.setLevel l L).expf = g.expf := rfl
@[simp] theorem setLevel_sqrtf : (g.setLevel l L).sqrtf = g.sqrtf := rfl
@[simp] theorem setLevel_maxiter : (g.setLevel l L).maxiter = g.maxiter := rfl
@[simp] theorem setLevel_numLevels : (g.setLevel l L).numLevels = g.numLevels := rfl
@[simp] theorem setLevel_preSmoothing :
    (g.setLevel l L).preSmoothing = g.preSmoothing := rfl
@[simp] theorem setLevel_postSmoothing :
    (g.setLevel l L).postSmoothing = g.postSmoothing := rfl

@[simp] theorem compResidual_fst (g : CpuGridData) (l : ℕ) :
    (compResidual g l).1 =
      g.setLevel l { g.getLevel l with r := residualField g (g.getLevel l) } := rfl

@[simp] theorem jacobi_zero : jacobi g l 0 = g := rfl

theorem jacobi_succ (n : ℕ) : jacobi g l (n + 1) = jacobiSweep (jacobi g l n) l := rfl

@[simp] theorem jacobi_isLinear (n : ℕ) : (jacobi g l n).isLinear = g.isLinear := by
  induction n with
  | zero => rfl
  | succ m ih => simp [jacobi, jacobiSweep, ih]

@[simp] theorem jacobi_omega (n : ℕ) : (jacobi g l n).omega = g.omega := by
  induction n with
  | zero => rfl
  | succ m ih => simp [jacobi, jacobiSweep, ih]

@[simp] theorem jacobi_gamma (n : ℕ) : (jacobi g l n).gamma = g.gamma := by
  induction n with
  | zero => rfl
  | succ m ih => simp [jacobi, jacobiSweep, ih]

@[simp] theorem jacobi_stencil (n : ℕ) : (jacobi g l n).stencil = g.stencil := by
  induction n with
  | zero => rfl
  | succ m ih => simp [jacobi, jacobiSweep, ih]

@[simp] theorem jacobi_expf (n : ℕ) : (jacobi g l n).expf = g.expf := by
  induction n with
  | zero => rfl
  | succ m ih => simp [jacobi, jacobiSweep, ih]

@[simp] theorem jacobi_numLevels (n : ℕ) : (jacobi g l n).numLevels = g.numLevels := by
  induction n with
  | zero => rfl
  | succ m ih => simp [jacobi, jacobiSweep, ih]

theorem jacobi_getLevel_ne (n : ℕ) (h : k ≠ l) :
    (jacobi g l n).getLevel k = g.getLevel k := by
  induction n with
  | zero => rfl
  | succ m ih => simp [jacobi, jacobiSweep, h, ih]

theorem jacobiSweep_levelDim :
    ((jacobiSweep g l).getLevel k).levelDim = ((g.getLevel k)).levelDim := by
  by_cases h : k = l
  · subst h; simp [jacobiSweep]
  · simp [jacobiSweep, h]

theorem jacobiSweep_h : ((jacobiSweep g l).getLevel k).h = ((g.getLevel k)).h := by
  by_cases h : k = l
  · subst h; simp [jacobiSweep]
  · simp [jacobiSweep, h]

theorem jacobi_levelDim (n : ℕ) :
    ((jacobi g l n).getLevel k).levelDim = (g.getLevel k).levelDim := by
  induction n with
  | zero => rfl
  | succ m ih => rw [jacobi_succ, jacobiSweep_levelDim, ih]

theorem jacobi_h (n : ℕ) : ((jacobi g l n).getLevel k).h = (g.getLevel k).h := by
  induction n with
  | zero => rfl
  | succ m ih => rw [jacobi_succ, jacobiSweep_h, ih]

end FrameLemmas

/-- C10: the residual reduction of `compResidual` accumulates into
`shards[thread_id * THREAD_OFFSET]` inside a buffer of `16 * THREAD_OFFSET`
doubles; the access is in bounds exactly when the OpenMP thread id is
below 16. -/
theorem shards_access_inBounds_iff (tid : ℕ) :
    shardIndex tid < shardsSize ↔ tid < 16 := by
  unfold shardIndex shardsSize THREAD_OFFSET CACHE_LINE_SIZE
  omega

/-- C10 witness: thread id 15 is in bounds. -/
theorem shards_access_inBounds_iff_witness :
    shardIndex 15 < shardsSize ↔ 15 < 16 := shards_access_inBounds_iff 15

/-- C9: the bounds assertion of `Vector3::get`/`Vector3::set` only checks
the flattened index against the buffer size; on a 2×2×2 buffer the access
at `(x,y,z) = (2,0,0)` has `x` out of its axis extent yet passes the
assertion, and a `set` there is observed by a `get` at the distinct
coordinate triple `(0,1,0)`. -/
theorem vector3_assert_checks_flat_index_only (val : ℚ) :
    (∀ (a : Flat.Vector3) (x y z : ℕ),
        a.assertOk x y z ↔ a.idx x y z < a.values.length) ∧
      (Flat.Vector3.make 2 2 2).assertOk 2 0 0 ∧
      ¬ 2 < (Flat.Vector3.make 2 2 2).dims0 ∧
      ((2 : ℕ), (0 : ℕ), (0 : ℕ)) ≠ ((0 : ℕ), (1 : ℕ), (0 : ℕ)) ∧
      ((Flat.Vector3.make 2 2 2).set 2 0 0 val).get 0 1 0 = val := by
  refine ⟨fun a x y z => Iff.rfl, by decide, by decide, by decide, ?_⟩
  rfl

/-- A small concrete fine level (interior extent 1×1×1) used to
instantiate the verified properties. -/
def sampleLevel : LevelData where
  levelDim := (1, 1, 1)
  h := 1 / 2
  v := fun _ _ _ => 1
  f := fun _ _ _ => 2
  r := fun _ _ _ => 3
  e := fun _ _ _ => 4
  restV := fun _ _ _ => 5

/-- A small concrete coarse level (interior extent 0×0×0). -/
def sampleCoarseLevel : LevelData where
  levelDim := (0, 0, 0)
  h := 1
  v := fun _ _ _ => 0
  f := fun _ _ _ => 0
  r := fun _ _ _ => 0
  e := fun _ _ _ => 0
  restV := fun _ _ _ => 0

/-- A small concrete two-level grid used to instantiate the verified
properties (linear mode, 7-point-style stencil truncated to two entries). -/
def sampleGrid : CpuGridData where
  maxiter := 1
  tol := 1 / 10
  isLinear := true
  preSmoothing := 1
  postSmoothing := 1
  omega := 1
  gamma := 1
  stencil := { values := [6, -1], offsets := [(0, 0, 0), (1, 0, 0)] }
  numLevels := 2
  levels := fun i => if i = 0 then sampleLevel else sampleCoarseLevel
  expf := fun q => 1 + q
  sqrtf := fun q => q

/-- C1: after `compResidual(grid, level)`, the stored `r` at every interior
point equals `f - ((Σᵢ wᵢ·v[x+dxᵢ,y+dyᵢ,z+dzᵢ])/h² + γ·v·exp(v) if
nonlinear else 0)`; `v` and `f` are unchanged; and the returned value is
`sqrt` of the sum of the stored `r²` over the interior points only. -/
theorem compResidual_residual_consistency (g : CpuGridData) (l : ℕ) (x y z : ℤ)
    (hx : 1 ≤ x ∧ x ≤ ((g.getLevel l).levelDim.1 : ℤ))
    (hy : 1 ≤ y ∧ y ≤ ((g.getLevel l).levelDim.2.1 : ℤ))
    (hz : 1 ≤ z ∧ z ≤ ((g.getLevel l).levelDim.2.2 : ℤ)) :
    ((CpuSolver.compResidual g l).1.getLevel l).r x y z =
        (g.getLevel l).f x y z -
          (CpuSolver.stencilSum g.stencil (g.getLevel l).h (g.getLevel l).v x y z +
            (if g.isLinear then 0
             else g.gamma * (g.getLevel l).v x y z *
               g.expf ((g.getLevel l).v x y z))) ∧
      ((CpuSolver.compResidual g l).1.getLevel l).v = (g.getLevel l).v ∧
      ((CpuSolver.compResidual g l).1.getLevel l).f = (g.getLevel l).f ∧
      (CpuSolver.compResidual g l).2 =
        g.sqrtf
          (∑ a ∈ Finset.Icc (1 : ℤ) (g.getLevel l).levelDim.1,
            ∑ b ∈ Finset.Icc (1 : ℤ) (g.getLevel l).levelDim.2.1,
              ∑ c ∈ Finset.Icc (1 : ℤ) (g.getLevel l).levelDim.2.2,
                ((CpuSolver.compResidual g l).1.getLevel l).r a b c *
                  ((CpuSolver.compResidual g l).1.getLevel l).r a b c) := by
  have hint : isInterior (g.getLevel l).levelDim x y z := by
    unfold isInterior; omega
  simp only [compResidual_fst, CpuGridData.getLevel_setLevel_same]
  refine ⟨?_, trivial, trivial, ?_⟩
  · show CpuSolver.residualField g (g.getLevel l) x y z = _
    rw [CpuSolver.residualField, if_pos hint]
    rfl
  · show g.sqrtf (CpuSolver.residualSumSq g (g.getLevel l)) = _
    refine congrArg g.sqrtf ?_
    rw [CpuSolver.residualSumSq]
    refine Finset.sum_congr rfl fun a ha => Finset.sum_congr rfl fun b hb =>
      Finset.sum_congr rfl fun c hc => ?_
    simp only [Finset.mem_Icc] at ha hb hc
    have h2 : isInterior (g.getLevel l).levelDim a b c := by
      unfold isInterior; omega
    show _ = CpuSolver.residualField g (g.getLevel l) a b c *
      CpuSolver.residualField g (g.getLevel l) a b c
    rw [CpuSolver.residualField, if_pos h2]

/-- C1 witness: the property instantiated on `sampleGrid` at the interior
point `(1,1,1)` of level 0. -/
theorem compResidual_residual_consistency_witness :
    (1 ≤ (1 : ℤ) ∧ (1 : ℤ) ≤ ((sampleGrid.getLevel 0).levelDim.1 : ℤ)) ∧
      ((CpuSolver.compResidual sampleGrid 0).1.getLevel 0).r 1 1 1 =
          (sampleGrid.getLevel 0).f 1 1 1 -
            (CpuSolver.stencilSum sampleGrid.stencil (sampleGrid.getLevel 0).h
                (sampleGrid.getLevel 0).v 1 1 1 +
              (if sampleGrid.isLinear then 0
               else sampleGrid.gamma * (sampleGrid.getLevel 0).v 1 1 1 *
                 sampleGrid.expf ((sampleGrid.getLevel 0).v 1 1 1))) := by
  have h : 1 ≤ (1 : ℤ) ∧ (1 : ℤ) ≤ ((sampleGrid.getLevel 0).levelDim.1 : ℤ) := by
    decide
  exact ⟨h, (compResidual_residual_consistency sampleGrid 0 1 1 1 h h h).1⟩

theorem jacobiSweep_r (g : CpuGridData) (l : ℕ) :
    ((CpuSolver.jacobiSweep g l).getLevel l).r =
      ((CpuSolver.compResidual g l).1.getLevel l).r := by
  simp [CpuSolver.jacobiSweep]

theorem jacobiSweep_v_interior (g : CpuGridData) (l : ℕ) (x y z : ℤ)
    (hint : isInterior (g.getLevel l).levelDim x y z) :
    ((CpuSolver.jacobiSweep g l).getLevel l).v x y z =
      if g.isLinear then
        (g.getLevel l).v x y z +
          g.omega * ((g.getLevel l).h * (g.getLevel l).h / g.stencil.values.getD 0 0 *
            ((CpuSolver.compResidual g l).1.getLevel l).r x y z)
      else
        (g.getLevel l).v x y z +
          g.omega * (((CpuSolver.compResidual g l).1.getLevel l).r x y z /
            (g.stencil.values.getD 0 0 / ((g.getLevel l).h * (g.getLevel l).h) +
              g.gamma * (1 + (g.getLevel l).v x y z) *
                g.expf ((g.getLevel l).v x y z))) := by
  simp [CpuSolver.jacobiSweep, CpuSolver.jacobiUpdateField, hint]

/-- C3: `jacobi(level, n)` performs exactly `n` sweeps (`0` sweeps leave
the grid unchanged, and the `n`-th sweep is a `jacobiSweep` applied to the
result of `n-1` sweeps); each sweep first recomputes the residual and then
updates every interior point by the linear rule `v + ω·(h²/w₀)·r` or the
nonlinear rule `v + ω·(r/(w₀/h² + γ·(1+v)·exp v))`; and after the call the
stored `r` is the residual of the iterate before the final update. -/
theorem jacobi_sweep_semantics (g : CpuGridData) (l : ℕ) (n : ℕ) (hn : 1 ≤ n)
    (x y z : ℤ) (hint : isInterior (g.getLevel l).levelDim x y z) :
    CpuSolver.jacobi g l 0 = g ∧
      CpuSolver.jacobi g l n =
        CpuSolver.jacobiSweep (CpuSolver.jacobi g l (n - 1)) l ∧
      ((CpuSolver.jacobi g l n).getLevel l).r =
        ((CpuSolver.compResidual (CpuSolver.jacobi g l (n - 1)) l).1.getLevel l).r ∧
      ((CpuSolver.jacobi g l n).getLevel l).v x y z =
        (if g.isLinear then
          ((CpuSolver.jacobi g l (n - 1)).getLevel l).v x y z +
            g.omega * ((g.getLevel l).h * (g.getLevel l).h /
                g.stencil.values.getD 0 0 *
              ((CpuSolver.compResidual (CpuSolver.jacobi g l (n - 1)) l).1.getLevel
                  l).r x y z)
        else
          ((CpuSolver.jacobi g l (n - 1)).getLevel l).v x y z +
            g.omega *
              (((CpuSolver.compResidual (CpuSolver.jacobi g l (n - 1)) l).1.getLevel
                  l).r x y z /
                (g.stencil.values.getD 0 0 /
                    ((g.getLevel l).h * (g.getLevel l).h) +
                  g.gamma * (1 + ((CpuSolver.jacobi g l (n - 1)).getLevel l).v x y z) *
                    g.expf (((CpuSolver.jacobi g l (n - 1)).getLevel l).v x y z)))) := by
  obtain ⟨m, rfl⟩ : ∃ m, n = m + 1 := ⟨n - 1, by omega⟩
  simp only [Nat.add_sub_cancel]
  have hint' : isInterior ((CpuSolver.jacobi g l m).getLevel l).levelDim x y z := by
    rw [jacobi_levelDim]; exact hint
  refine ⟨rfl, rfl, ?_, ?_⟩
  · rw [jacobi_succ, jacobiSweep_r]
  · rw [jacobi_succ, jacobiSweep_v_interior _ _ _ _ _ hint']
    simp [jacobi_h]

/-- C3 witness: the property instantiated on `sampleGrid` with one sweep
at the interior point `(1,1,1)` of level 0. -/
theorem jacobi_sweep_semantics_witness :
    1 ≤ 1 ∧ isInterior (sampleGrid.getLevel 0).levelDim 1 1 1 ∧
      CpuSolver.jacobi sampleGrid 0 1 =
        CpuSolver.jacobiSweep (CpuSolver.jacobi sampleGrid 0 (1 - 1)) 0 := by
  have h1 : (1 : ℕ) ≤ 1 := le_refl 1
  have h2 : isInterior (sampleGrid.getLevel 0).levelDim 1 1 1 := by decide
  exact ⟨h1, h2, (jacobi_sweep_semantics sampleGrid 0 1 h1 1 1 1 h2).2.1⟩

theorem restrictFac_sum_eq_one :
    ∑ ii ∈ ({-1, 0, 1} : Finset ℤ), ∑ jj ∈ ({-1, 0, 1} : Finset ℤ),
      ∑ kk ∈ ({-1, 0, 1} : Finset ℤ), CpuSolver.restrictFac ii jj kk = 1 := by
  norm_num [CpuSolver.restrictFac]

/-- C4: at every interior coarse point, and for every fine field,
`restrict` stores exactly the 27-point full-weighting sum centred at the
fine coordinates `(2X, 2Y, 2Z)` with separable weights `(2-|t|)/2` per
axis and normalization `1/8`; those 27 weights sum to `1`; consequently a
fine field of constant value `c` restricts to `c` on every interior
coarse cell. -/
theorem restrict_weights_and_constant (cnx cny cnz : ℕ) (fine coarse : Field3)
    (c : ℚ) (X Y Z : ℤ)
    (hX : 1 ≤ X ∧ X < (cnx : ℤ) - 1) (hY : 1 ≤ Y ∧ Y < (cny : ℤ) - 1)
    (hZ : 1 ≤ Z ∧ Z < (cnz : ℤ) - 1) :
    (∀ fine0 coarse0 : Field3,
        CpuSolver.restrict3 cnx cny cnz fine0 coarse0 X Y Z =
          ∑ ii ∈ ({-1, 0, 1} : Finset ℤ), ∑ jj ∈ ({-1, 0, 1} : Finset ℤ),
            ∑ kk ∈ ({-1, 0, 1} : Finset ℤ),
              ((1 : ℚ) / 8) * ((2 - |(ii : ℚ)|) / 2) * ((2 - |(jj : ℚ)|) / 2) *
                  ((2 - |(kk : ℚ)|) / 2) *
                fine0 (2 * X + ii) (2 * Y + jj) (2 * Z + kk)) ∧
      (∑ ii ∈ ({-1, 0, 1} : Finset ℤ), ∑ jj ∈ ({-1, 0, 1} : Finset ℤ),
        ∑ kk ∈ ({-1, 0, 1} : Finset ℤ),
          ((1 : ℚ) / 8) * ((2 - |(ii : ℚ)|) / 2) * ((2 - |(jj : ℚ)|) / 2) *
            ((2 - |(kk : ℚ)|) / 2)) = 1 ∧
      ((∀ x y z : ℤ, fine x y z = c) →
        CpuSolver.restrict3 cnx cny cnz fine coarse X Y Z = c) := by
  have hsum : (∑ ii ∈ ({-1, 0, 1} : Finset ℤ), ∑ jj ∈ ({-1, 0, 1} : Finset ℤ),
      ∑ kk ∈ ({-1, 0, 1} : Finset ℤ),
        ((1 : ℚ) / 8) * ((2 - |(ii : ℚ)|) / 2) * ((2 - |(jj : ℚ)|) / 2) *
          ((2 - |(kk : ℚ)|) / 2)) = 1 := by
    norm_num
  have hg : ∀ fine0 coarse0 : Field3,
      CpuSolver.restrict3 cnx cny cnz fine0 coarse0 X Y Z =
        ∑ ii ∈ ({-1, 0, 1} : Finset ℤ), ∑ jj ∈ ({-1, 0, 1} : Finset ℤ),
          ∑ kk ∈ ({-1, 0, 1} : Finset ℤ),
            ((1 : ℚ) / 8) * ((2 - |(ii : ℚ)|) / 2) * ((2 - |(jj : ℚ)|) / 2) *
                ((2 - |(kk : ℚ)|) / 2) *
              fine0 (2 * X + ii) (2 * Y + jj) (2 * Z + kk) := by
    intro fine0 coarse0
    rw [CpuSolver.restrict3, if_pos ⟨hX, hY, hZ⟩]
    rfl
  refine ⟨hg, hsum, fun hconst => ?_⟩
  rw [hg fine coarse]
  simp only [hconst, ← Finset.sum_mul]
  rw [hsum, one_mul]

/-- C4 witness: the property instantiated at the interior coarse point
`(1,1,1)` of a 4×4×4 padded coarse buffer; in particular restricting the
constant field `3` yields `3` there. -/
theorem restrict_weights_and_constant_witness :
    (1 ≤ (1 : ℤ) ∧ (1 : ℤ) < (4 : ℤ) - 1) ∧
      (∀ x y z : ℤ, Field3.fill 3 x y z = 3) ∧
      CpuSolver.restrict3 4 4 4 (Field3.fill 3) (Field3.fill 0) 1 1 1 = 3 := by
  have hb : 1 ≤ (1 : ℤ) ∧ (1 : ℤ) < ((4 : ℕ) : ℤ) - 1 := by decide
  have hc : ∀ x y z : ℤ, Field3.fill 3 x y z = 3 := fun _ _ _ => rfl
  exact ⟨hb, hc,
    (restrict_weights_and_constant 4 4 4 (Field3.fill 3) (Field3.fill 0) 3
      1 1 1 hb hb hb).2.2 hc⟩

theorem compResidual_r_frame (g : CpuGridData) (l : ℕ) (x y z : ℤ)
    (h : ¬ isInterior (g.getLevel l).levelDim x y z) :
    ((CpuSolver.compResidual g l).1.getLevel l).r x y z =
      (g.getLevel l).r x y z := by
  simp [CpuSolver.residualField, h]

theorem jacobi_v_frame (g : CpuGridData) (l : ℕ) (n : ℕ) (x y z : ℤ)
    (h : ¬ isInterior (g.getLevel l).levelDim x y z) :
    ((CpuSolver.jacobi g l n).getLevel l).v x y z = (g.getLevel l).v x y z := by
  induction n with
  | zero => rfl
  | succ m ih =>
    rw [jacobi_succ]
    simp [CpuSolver.jacobiSweep, CpuSolver.jacobiUpdateField, jacobi_levelDim,
      h, ih]

theorem jacobi_r_frame (g : CpuGridData) (l : ℕ) (n : ℕ) (x y z : ℤ)
    (h : ¬ isInterior (g.getLevel l).levelDim x y z) :
    ((CpuSolver.jacobi g l n).getLevel l).r x y z = (g.getLevel l).r x y z := by
  induction n with
  | zero => rfl
  | succ m ih =>
    rw [jacobi_succ]
    simp [CpuSolver.jacobiSweep, CpuSolver.residualField, jacobi_levelDim, h, ih]

/-- C7 (amended): `compResidual`, `jacobi` and `applyStencil` leave every
cell outside the interior range unchanged, and `restrict` leaves every
coarse cell outside its interior loop range unchanged — those four kernels
never write a halo cell.  (`interpolate` is excluded: see the
counterexample `interpolate_writes_halo_counterexample`.) -/
theorem kernels_write_interior_only (g : CpuGridData) (l n : ℕ) (x y z : ℤ)
    (vIn : Field3) (cnx cny cnz : ℕ) (fine coarse : Field3)
    (hni : ¬ isInterior (g.getLevel l).levelDim x y z)
    (hnc : ¬ ((1 ≤ x ∧ x < (cnx : ℤ) - 1) ∧ (1 ≤ y ∧ y < (cny : ℤ) - 1) ∧
      (1 ≤ z ∧ z < (cnz : ℤ) - 1))) :
    ((CpuSolver.compResidual g l).1.getLevel l).r x y z =
        (g.getLevel l).r x y z ∧
      ((CpuSolver.jacobi g l n).getLevel l).v x y z = (g.getLevel l).v x y z ∧
      ((CpuSolver.jacobi g l n).getLevel l).r x y z = (g.getLevel l).r x y z ∧
      ((CpuSolver.applyStencil g l vIn).getLevel l).r x y z =
        (g.getLevel l).r x y z ∧
      CpuSolver.restrict3 cnx cny cnz fine coarse x y z = coarse x y z := by
  refine ⟨compResidual_r_frame g l x y z hni, jacobi_v_frame g l n x y z hni,
    jacobi_r_frame g l n x y z hni, ?_, ?_⟩
  · simp [CpuSolver.applyStencil, CpuSolver.applyStencilField, hni]
  · rw [CpuSolver.restrict3, if_neg hnc]

/-- C7 witness: the frame property at the halo cell `(0,0,0)` of level 0
of `sampleGrid` (also outside the interior of a 4×4×4 coarse buffer). -/
theorem kernels_write_interior_only_witness :
    ¬ isInterior (sampleGrid.getLevel 0).levelDim 0 0 0 ∧
      ¬ ((1 ≤ (0 : ℤ) ∧ (0 : ℤ) < ((4 : ℕ) : ℤ) - 1) ∧
          (1 ≤ (0 : ℤ) ∧ (0 : ℤ) < ((4 : ℕ) : ℤ) - 1) ∧
          (1 ≤ (0 : ℤ) ∧ (0 : ℤ) < ((4 : ℕ) : ℤ) - 1)) ∧
      ((CpuSolver.compResidual sampleGrid 0).1.getLevel 0).r 0 0 0 =
        (sampleGrid.getLevel 0).r 0 0 0 := by
  have h1 : ¬ isInterior (sampleGrid.getLevel 0).levelDim 0 0 0 := by decide
  have h2 : ¬ ((1 ≤ (0 : ℤ) ∧ (0 : ℤ) < ((4 : ℕ) : ℤ) - 1) ∧
      (1 ≤ (0 : ℤ) ∧ (0 : ℤ) < ((4 : ℕ) : ℤ) - 1) ∧
      (1 ≤ (0 : ℤ) ∧ (0 : ℤ) < ((4 : ℕ) : ℤ) - 1)) := by decide
  exact ⟨h1, h2,
    (kernels_write_interior_only sampleGrid 0 0 0 0 0 (Field3.fill 0) 4 4 4
      (Field3.fill 0) (Field3.fill 0) h1 h2).1⟩

/-- C7 counterexample: `interpolate` does write a halo cell.  On a fine
buffer of padded extent 3×3×3 (whose halo cells are exactly those with a
coordinate 0 or 2), the injection pass overwrites the halo cell `(0,0,0)`
of `e` (previously `1`) with the coarse value `5`. -/
theorem interpolate_writes_halo_counterexample :
    CpuSolver.interpolate3 3 3 3 (Field3.fill 5) (Field3.fill 1) 0 0 0 = 5 ∧
      Field3.fill 1 0 0 0 = 1 ∧ (5 : ℚ) ≠ 1 := by
  refine ⟨?_, rfl, by norm_num⟩
  rfl

/-- An affine coarse field: value `a·i + b·j + c·k + d` at index `(i,j,k)`. -/
def affineField (a b c d : ℚ) : Field3 :=
  fun x y z => a * (x : ℚ) + b * (y : ℚ) + c * (z : ℚ) + d

/-- The affine function sampled at the fine half-indices. -/
def affineHalf (a b c d : ℚ) (x y z : ℤ) : ℚ :=
  a * ((x : ℚ) / 2) + b * ((y : ℚ) / 2) + c * ((z : ℚ) / 2) + d

/-- Axis coordinates whose interpolated value only depends on injected
cells: even and below `n-1` (an injection target), or odd with both even
neighbours below `n-1`. -/
def okAxis (n : ℕ) (t : ℤ) : Prop :=
  (0 ≤ t ∧ t % 2 = 0 ∧ t < (n : ℤ) - 1) ∨
    (t % 2 = 1 ∧ 1 ≤ t ∧ t + 1 < (n : ℤ) - 1)

theorem injectPass_affine (nx ny nz : ℕ) (a b c d : ℚ) (e : Field3) (x y z : ℤ)
    (hx : 0 ≤ x ∧ x % 2 = 0 ∧ x < (nx : ℤ) - 1)
    (hy : 0 ≤ y ∧ y % 2 = 0 ∧ y < (ny : ℤ) - 1)
    (hz : 0 ≤ z ∧ z % 2 = 0 ∧ z < (nz : ℤ) - 1) :
    CpuSolver.injectPass nx ny nz (affineField a b c d) e x y z =
      affineHalf a b c d x y z := by
  rw [CpuSolver.injectPass, if_pos ⟨hx, hy, hz⟩]
  obtain ⟨i, rfl⟩ : ∃ i, x = 2 * i := ⟨x / 2, by omega⟩
  obtain ⟨j, rfl⟩ : ∃ j, y = 2 * j := ⟨y / 2, by omega⟩
  obtain ⟨k, rfl⟩ : ∃ k, z = 2 * k := ⟨z / 2, by omega⟩
  have hi : (2 * i) / 2 = i := by omega
  have hj : (2 * j) / 2 = j := by omega
  have hk : (2 * k) / 2 = k := by omega
  rw [hi, hj, hk, affineField, affineHalf]
  push_cast
  ring

theorem xPass_affine (nx ny nz : ℕ) (a b c d : ℚ) (e : Field3) (x y z : ℤ)
    (hx : okAxis nx x)
    (hy : 0 ≤ y ∧ y % 2 = 0 ∧ y < (ny : ℤ) - 1)
    (hz : 0 ≤ z ∧ z % 2 = 0 ∧ z < (nz : ℤ) - 1) :
    CpuSolver.xPass nx ny nz
        (CpuSolver.injectPass nx ny nz (affineField a b c d) e) x y z =
      affineHalf a b c d x y z := by
  rcases hx with hev | hod
  · rw [CpuSolver.xPass, if_neg (by omega)]
    exact injectPass_affine nx ny nz a b c d e x y z hev hy hz
  · rw [CpuSolver.xPass, if_pos ⟨by omega, by omega, by omega⟩]
    rw [injectPass_affine nx ny nz a b c d e (x - 1) y z (by omega) hy hz]
    rw [injectPass_affine nx ny nz a b c d e (x + 1) y z (by omega) hy hz]
    rw [affineHalf, affineHalf, affineHalf]
    push_cast
    ring

theorem yPass_affine (nx ny nz : ℕ) (a b c d : ℚ) (e : Field3) (x y z : ℤ)
    (hx : okAxis nx x) (hy : okAxis ny y)
    (hz : 0 ≤ z ∧ z % 2 = 0 ∧ z < (nz : ℤ) - 1) :
    CpuSolver.yPass nx ny nz (CpuSolver.xPass nx ny nz
        (CpuSolver.injectPass nx ny nz (affineField a b c d) e)) x y z =
      affineHalf a b c d x y z := by
  have hxb : 0 ≤ x ∧ x < (nx : ℤ) := by rcases hx with h | h <;> omega
  rcases hy with hev | hod
  · rw [CpuSolver.yPass, if_neg (by omega)]
    exact xPass_affine nx ny nz a b c d e x y z hx hev hz
  · rw [CpuSolver.yPass, if_pos ⟨hxb, ⟨by omega, by omega, by omega⟩, by omega⟩]
    rw [xPass_affine nx ny nz a b c d e x (y - 1) z hx (by omega) hz]
    rw [xPass_affine nx ny nz a b c d e x (y + 1) z hx (by omega) hz]
    rw [affineHalf, affineHalf, affineHalf]
    push_cast
    ring

theorem zPass_affine (nx ny nz : ℕ) (a b c d : ℚ) (e : Field3) (x y z : ℤ)
    (hx : okAxis nx x) (hy : okAxis ny y) (hz : okAxis nz z) :
    CpuSolver.zPass nx ny nz (CpuSolver.yPass nx ny nz (CpuSolver.xPass nx ny nz
        (CpuSolver.injectPass nx ny nz (affineField a b c d) e))) x y z =
      affineHalf a b c d x y z := by
  have hxb : 0 ≤ x ∧ x < (nx : ℤ) := by rcases hx with h | h <;> omega
  have hyb : 0 ≤ y ∧ y < (ny : ℤ) := by rcases hy with h | h <;> omega
  rcases hz with hev | hod
  · rw [CpuSolver.zPass, if_neg (by omega)]
    exact yPass_affine nx ny nz a b c d e x y z hx hy hev
  · rw [CpuSolver.zPass, if_pos ⟨hxb, hyb, by omega, by omega, by omega⟩]
    rw [yPass_affine nx ny nz a b c d e x y (z - 1) hx hy (by omega)]
    rw [yPass_affine nx ny nz a b c d e x y (z + 1) hx hy (by omega)]
    rw [affineHalf, affineHalf, affineHalf]
    push_cast
    ring

/-- C5 (amended): `interpolate` performs its four passes (injection, then
x-, y-, z-interpolation) in that fixed order, and for every coarse field
affine in its indices, every fine cell whose four-pass computation consumes
only injected values — each coordinate either even and below `n-1`, or odd
with both even neighbours below `n-1` (`okAxis`) — receives exactly the
affine function evaluated at the corresponding half-indices. -/
theorem interpolate_four_passes_affine (nx ny nz : ℕ) (a b c d : ℚ)
    (e : Field3) (x y z : ℤ) (hx : okAxis nx x) (hy : okAxis ny y)
    (hz : okAxis nz z) :
    (∀ coarse e0 : Field3,
        CpuSolver.interpolate3 nx ny nz coarse e0 =
          CpuSolver.zPass nx ny nz (CpuSolver.yPass nx ny nz
            (CpuSolver.xPass nx ny nz
              (CpuSolver.injectPass nx ny nz coarse e0)))) ∧
      CpuSolver.interpolate3 nx ny nz (affineField a b c d) e x y z =
        a * ((x : ℚ) / 2) + b * ((y : ℚ) / 2) + c * ((z : ℚ) / 2) + d := by
  refine ⟨fun coarse e0 => rfl, ?_⟩
  exact zPass_affine nx ny nz a b c d e x y z hx hy hz

/-- C5 witness: the interior fine cell `(1,2,3)` of a 7×7×7 fine buffer
satisfies `okAxis` on every axis, and interpolating the affine coarse
field `i + 2j + 3k` yields `1/2 + 2 + 9/2` there. -/
theorem interpolate_four_passes_affine_witness :
    okAxis 7 1 ∧ okAxis 7 2 ∧ okAxis 7 3 ∧
      CpuSolver.interpolate3 7 7 7 (affineField 1 2 3 0) (Field3.fill 0) 1 2 3 =
        1 * ((1 : ℚ) / 2) + 2 * ((2 : ℚ) / 2) + 3 * ((3 : ℚ) / 2) + 0 := by
  have h1 : okAxis 7 1 := by unfold okAxis; omega
  have h2 : okAxis 7 2 := by unfold okAxis; omega
  have h3 : okAxis 7 3 := by unfold okAxis; omega
  exact ⟨h1, h2, h3,
    (interpolate_four_passes_affine 7 7 7 1 2 3 0 (Field3.fill 0) 1 2 3
      h1 h2 h3).2⟩

/-- C5 counterexample: the claim as stated fails for cells written by a
pass from non-injected data.  On a 5×5×5 fine buffer with the affine
coarse field `i` and `e` initially zero, the x-pass writes the fine cell
`(3,2,2)` (an interior cell, reachable by the passes) the value
`(1/2)·e[2,2,2] + (1/2)·e[4,2,2] = 1/2`, because `(4,2,2)` is beyond the
injection bound `x < nx-1`; the affine function at the half-indices is
`3/2` there. -/
theorem interpolate_affine_counterexample :
    CpuSolver.interpolate3 5 5 5 (affineField 1 0 0 0) (Field3.fill 0) 3 2 2 =
        1 / 2 ∧
      1 * ((3 : ℚ) / 2) + 0 * ((2 : ℚ) / 2) + 0 * ((2 : ℚ) / 2) + 0 = 3 / 2 ∧
      (1 / 2 : ℚ) ≠ 3 / 2 := by
  refine ⟨?_, by norm_num, by norm_num⟩
  norm_num [CpuSolver.interpolate3, CpuSolver.zPass, CpuSolver.yPass,
    CpuSolver.xPass, CpuSolver.injectPass, affineField, Field3.fill]

theorem jacobi_e (g : CpuGridData) (l n k : ℕ) :
    ((CpuSolver.jacobi g l n).getLevel k).e = (g.getLevel k).e := by
  induction n with
  | zero => rfl
  | succ m ih =>
    rw [jacobi_succ]
    by_cases h : k = l
    · subst h
      simp [CpuSolver.jacobiSweep, ih]
    · simp [CpuSolver.jacobiSweep, h, ih]

theorem vcycleDownStep_linear_v (g : CpuGridData) (i : ℕ)
    (hlin : g.isLinear = true) :
    ((CpuSolver.vcycleDownStep g i).getLevel (i + 1)).v = Field3.fill 0 := by
  simp [CpuSolver.vcycleDownStep, hlin]

theorem vcycleDownStep_linear_f (g : CpuGridData) (i : ℕ)
    (hlin : g.isLinear = true) :
    ((CpuSolver.vcycleDownStep g i).getLevel (i + 1)).f =
      CpuSolver.restrict3 (CpuSolver.paddedDim (g.getLevel (i + 1))).1
        (CpuSolver.paddedDim (g.getLevel (i + 1))).2.1
        (CpuSolver.paddedDim (g.getLevel (i + 1))).2.2
        ((CpuSolver.compResidual (CpuSolver.jacobi g i g.preSmoothing) i).1.getLevel
          i).r ((g.getLevel (i + 1)).f) := by
  have h1 : i + 1 ≠ i := by omega
  simp [CpuSolver.vcycleDownStep, hlin, h1, jacobi_getLevel_ne, jacobi_levelDim]

theorem vcycleDownStep_nonlinear_fields (g : CpuGridData) (i : ℕ)
    (hnl : g.isLinear = false) :
    ((CpuSolver.vcycleDownStep g i).getLevel (i + 1)).restV =
        CpuSolver.restrict3 (CpuSolver.paddedDim (g.getLevel (i + 1))).1
          (CpuSolver.paddedDim (g.getLevel (i + 1))).2.1
          (CpuSolver.paddedDim (g.getLevel (i + 1))).2.2
          (((CpuSolver.jacobi g i g.preSmoothing).getLevel i).v)
          ((g.getLevel (i + 1)).restV) ∧
      ((CpuSolver.vcycleDownStep g i).getLevel (i + 1)).v =
        CpuSolver.restrict3 (CpuSolver.paddedDim (g.getLevel (i + 1))).1
          (CpuSolver.paddedDim (g.getLevel (i + 1))).2.1
          (CpuSolver.paddedDim (g.getLevel (i + 1))).2.2
          (((CpuSolver.jacobi g i g.preSmoothing).getLevel i).v)
          ((g.getLevel (i + 1)).v) ∧
      ((CpuSolver.vcycleDownStep g i).getLevel (i + 1)).r =
        CpuSolver.applyStencilField g.stencil g.gamma g.expf
          (g.getLevel (i + 1)).levelDim (g.getLevel (i + 1)).h
          (CpuSolver.restrict3 (CpuSolver.paddedDim (g.getLevel (i + 1))).1
            (CpuSolver.paddedDim (g.getLevel (i + 1))).2.1
            (CpuSolver.paddedDim (g.getLevel (i + 1))).2.2
            (((CpuSolver.jacobi g i g.preSmoothing).getLevel i).v)
            ((g.getLevel (i + 1)).restV))
          ((g.getLevel (i + 1)).r) ∧
      ((CpuSolver.vcycleDownStep g i).getLevel (i + 1)).f =
        Field3.add
          (CpuSolver.restrict3 (CpuSolver.paddedDim (g.getLevel (i + 1))).1
            (CpuSolver.paddedDim (g.getLevel (i + 1))).2.1
            (CpuSolver.paddedDim (g.getLevel (i + 1))).2.2
            ((CpuSolver.compResidual (CpuSolver.jacobi g i g.preSmoothing)
              i).1.getLevel i).r ((g.getLevel (i + 1)).f))
          (CpuSolver.applyStencilField g.stencil g.gamma g.expf
            (g.getLevel (i + 1)).levelDim (g.getLevel (i + 1)).h
            (CpuSolver.restrict3 (CpuSolver.paddedDim (g.getLevel (i + 1))).1
              (CpuSolver.paddedDim (g.getLevel (i + 1))).2.1
              (CpuSolver.paddedDim (g.getLevel (i + 1))).2.2
              (((CpuSolver.jacobi g i g.preSmoothing).getLevel i).v)
              ((g.getLevel (i + 1)).restV))
            ((g.getLevel (i + 1)).r)) := by
  have h1 : i + 1 ≠ i := by omega
  refine ⟨?_, ?_, ?_, ?_⟩ <;>
    simp [CpuSolver.vcycleDownStep, CpuSolver.applyStencil, hnl, h1,
      jacobi_getLevel_ne, jacobi_levelDim, jacobi_h]

theorem vcycleUpStep_nonlinear_v (g : CpuGridData) (j : ℕ) (hj : 1 ≤ j)
    (hnl : g.isLinear = false) :
    ((CpuSolver.vcycleUpStep g j).getLevel j).v =
      Field3.sub ((g.getLevel j).v) ((g.getLevel j).restV) := by
  have h1 : j - 1 ≠ j := by omega
  have h2 : j ≠ j - 1 := by omega
  simp [CpuSolver.vcycleUpStep, CpuSolver.interpolate, hnl, h1, h2,
    jacobi_getLevel_ne]

theorem vcycleUpStep_nonlinear_e (g : CpuGridData) (j : ℕ) (hj : 1 ≤ j)
    (hnl : g.isLinear = false) :
    ((CpuSolver.vcycleUpStep g j).getLevel (j - 1)).e =
      CpuSolver.interpolate3 (CpuSolver.paddedDim (g.getLevel (j - 1))).1
        (CpuSolver.paddedDim (g.getLevel (j - 1))).2.1
        (CpuSolver.paddedDim (g.getLevel (j - 1))).2.2
        (Field3.sub ((g.getLevel j).v) ((g.getLevel j).restV))
        ((g.getLevel (j - 1)).e) := by
  have h1 : j - 1 ≠ j := by omega
  have h3 : j - 1 + 1 = j := by omega
  simp [CpuSolver.vcycleUpStep, CpuSolver.interpolate, hnl, h1, h3, jacobi_e]

/-- C2: in the V-cycle's downward leg, after restricting the fine residual
into the next level's `f`: in linear mode the next level's `v` is zeroed
everywhere; in nonlinear (FAS) mode the smoothed fine `v` is restricted
into both `v` and `restV` of the next level, the nonlinear stencil is
applied to the restricted `restV` writing the next level's `r`, and the
next level's `f` is incremented by that `r`.  In the upward leg, in
nonlinear mode, level `j`'s `v` has `restV` subtracted before it is
interpolated into level `j-1`'s `e`. -/
theorem vcycle_fas_structure (g : CpuGridData) (i j : ℕ) (hj : 1 ≤ j) :
    (g.isLinear = true →
      ((CpuSolver.vcycleDownStep g i).getLevel (i + 1)).v = Field3.fill 0) ∧
    (g.isLinear = false →
      ((CpuSolver.vcycleDownStep g i).getLevel (i + 1)).restV =
          CpuSolver.restrict3 (CpuSolver.paddedDim (g.getLevel (i + 1))).1
            (CpuSolver.paddedDim (g.getLevel (i + 1))).2.1
            (CpuSolver.paddedDim (g.getLevel (i + 1))).2.2
            (((CpuSolver.jacobi g i g.preSmoothing).getLevel i).v)
            ((g.getLevel (i + 1)).restV) ∧
        ((CpuSolver.vcycleDownStep g i).getLevel (i + 1)).v =
          CpuSolver.restrict3 (CpuSolver.paddedDim (g.getLevel (i + 1))).1
            (CpuSolver.paddedDim (g.getLevel (i + 1))).2.1
            (CpuSolver.paddedDim (g.getLevel (i + 1))).2.2
            (((CpuSolver.jacobi g i g.preSmoothing).getLevel i).v)
            ((g.getLevel (i + 1)).v) ∧
        ((CpuSolver.vcycleDownStep g i).getLevel (i + 1)).r =
          CpuSolver.applyStencilField g.stencil g.gamma g.expf
            (g.getLevel (i + 1)).levelDim (g.getLevel (i + 1)).h
            (CpuSolver.restrict3 (CpuSolver.paddedDim (g.getLevel (i + 1))).1
              (CpuSolver.paddedDim (g.getLevel (i + 1))).2.1
              (CpuSolver.paddedDim (g.getLevel (i + 1))).2.2
              (((CpuSolver.jacobi g i g.preSmoothing).getLevel i).v)
              ((g.getLevel (i + 1)).restV))
            ((g.getLevel (i + 1)).r) ∧
        ((CpuSolver.vcycleDownStep g i).getLevel (i + 1)).f =
          Field3.add
            (CpuSolver.restrict3 (CpuSolver.paddedDim (g.getLevel (i + 1))).1
              (CpuSolver.paddedDim (g.getLevel (i + 1))).2.1
              (CpuSolver.paddedDim (g.getLevel (i + 1))).2.2
              ((CpuSolver.compResidual (CpuSolver.jacobi g i g.preSmoothing)
                i).1.getLevel i).r ((g.getLevel (i + 1)).f))
            (CpuSolver.applyStencilField g.stencil g.gamma g.expf
              (g.getLevel (i + 1)).levelDim (g.getLevel (i + 1)).h
              (CpuSolver.restrict3 (CpuSolver.paddedDim (g.getLevel (i + 1))).1
                (CpuSolver.paddedDim (g.getLevel (i + 1))).2.1
                (CpuSolver.paddedDim (g.getLevel (i + 1))).2.2
                (((CpuSolver.jacobi g i g.preSmoothing).getLevel i).v)
                ((g.getLevel (i + 1)).restV))
              ((g.getLevel (i + 1)).r))) ∧
    (g.isLinear = false →
      ((CpuSolver.vcycleUpStep g j).getLevel j).v =
        Field3.sub ((g.getLevel j).v) ((g.getLevel j).restV)) ∧
    (g.isLinear = false →
      ((CpuSolver.vcycleUpStep g j).getLevel (j - 1)).e =
        CpuSolver.interpolate3 (CpuSolver.paddedDim (g.getLevel (j - 1))).1
          (CpuSolver.paddedDim (g.getLevel (j - 1))).2.1
          (CpuSolver.paddedDim (g.getLevel (j - 1))).2.2
          (Field3.sub ((g.getLevel j).v) ((g.getLevel j).restV))
          ((g.getLevel (j - 1)).e)) := by
  exact ⟨vcycleDownStep_linear_v g i,
    vcycleDownStep_nonlinear_fields g i,
    vcycleUpStep_nonlinear_v g j hj,
    vcycleUpStep_nonlinear_e g j hj⟩

/-- C2 witness: the property instantiated on `sampleGrid` (linear mode)
with down-leg level 0 and up-leg level 1; the linear branch zeroes the
coarse `v`. -/
theorem vcycle_fas_structure_witness :
    (1 : ℕ) ≤ 1 ∧ sampleGrid.isLinear = true ∧
      ((CpuSolver.vcycleDownStep sampleGrid 0).getLevel (0 + 1)).v =
        Field3.fill 0 := by
  have hj : (1 : ℕ) ≤ 1 := le_refl 1
  have hlin : sampleGrid.isLinear = true := rfl
  exact ⟨hj, hlin, (vcycle_fas_structure sampleGrid 0 1 hj).1 hlin⟩

/-- Replace only the (never-consulted) tolerance parameter of the grid. -/
def setTol (g : CpuGridData) (t : ℚ) : CpuGridData := { g with tol := t }

@[simp] theorem setTol_numLevels (g : CpuGridData) (t : ℚ) :
    (setTol g t).numLevels = g.numLevels := rfl

@[simp] theorem setTol_maxiter (g : CpuGridData) (t : ℚ) :
    (setTol g t).maxiter = g.maxiter := rfl

@[simp] theorem setTol_isLinear (g : CpuGridData) (t : ℚ) :
    (setTol g t).isLinear = g.isLinear := rfl

@[simp] theorem setTol_preSmoothing (g : CpuGridData) (t : ℚ) :
    (setTol g t).preSmoothing = g.preSmoothing := rfl

@[simp] theorem setTol_postSmoothing (g : CpuGridData) (t : ℚ) :
    (setTol g t).postSmoothing = g.postSmoothing := rfl

@[simp] theorem getLevel_setTol (g : CpuGridData) (t : ℚ) (l : ℕ) :
    (setTol g t).getLevel l = g.getLevel l := rfl

@[simp] theorem setLevel_setTol (g : CpuGridData) (t : ℚ) (l : ℕ) (L : LevelData) :
    (setTol g t).setLevel l L = setTol (g.setLevel l L) t := rfl

theorem compResidual_setTol (g : CpuGridData) (t : ℚ) (l : ℕ) :
    CpuSolver.compResidual (setTol g t) l =
      (setTol (CpuSolver.compResidual g l).1 t, (CpuSolver.compResidual g l).2) :=
  rfl

theorem jacobiSweep_setTol (g : CpuGridData) (t : ℚ) (l : ℕ) :
    CpuSolver.jacobiSweep (setTol g t) l = setTol (CpuSolver.jacobiSweep g l) t :=
  rfl

theorem jacobi_setTol (g : CpuGridData) (t : ℚ) (l n : ℕ) :
    CpuSolver.jacobi (setTol g t) l n = setTol (CpuSolver.jacobi g l n) t := by
  induction n with
  | zero => rfl
  | succ m ih => rw [jacobi_succ, ih, jacobi_succ, jacobiSweep_setTol]

theorem interpolate_setTol (g : CpuGridData) (t : ℚ) (l : ℕ) :
    CpuSolver.interpolate (setTol g t) l = setTol (CpuSolver.interpolate g l) t :=
  rfl

theorem applyStencil_setTol (g : CpuGridData) (t : ℚ) (l : ℕ) (vIn : Field3) :
    CpuSolver.applyStencil (setTol g t) l vIn =
      setTol (CpuSolver.applyStencil g l vIn) t :=
  rfl

theorem vcycleDownStep_setTol (g : CpuGridData) (t : ℚ) (i : ℕ) :
    CpuSolver.vcycleDownStep (setTol g t) i =
      setTol (CpuSolver.vcycleDownStep g i) t := by
  simp only [CpuSolver.vcycleDownStep, setTol_preSmoothing, jacobi_setTol,
    compResidual_setTol, setLevel_setTol, getLevel_setTol, setLevel_isLinear,
    setTol_isLinear, applyStencil_setTol,
    apply_ite (fun gq : CpuGridData => setTol gq t)]

theorem vcycleUpStep_setTol (g : CpuGridData) (t : ℚ) (i : ℕ) :
    CpuSolver.vcycleUpStep (setTol g t) i =
      setTol (CpuSolver.vcycleUpStep g i) t := by
  by_cases hb : g.isLinear = true
  · simp only [CpuSolver.vcycleUpStep, setTol_postSmoothing, setTol_isLinear,
      if_pos hb, setLevel_setTol, getLevel_setTol, interpolate_setTol,
      jacobi_setTol]
  · simp only [CpuSolver.vcycleUpStep, setTol_postSmoothing, setTol_isLinear,
      if_neg hb, setLevel_setTol, getLevel_setTol, interpolate_setTol,
      jacobi_setTol]

theorem foldl_vcycleDownStep_setTol (t : ℚ) (L : List ℕ) :
    ∀ g : CpuGridData,
      L.foldl CpuSolver.vcycleDownStep (setTol g t) =
        setTol (L.foldl CpuSolver.vcycleDownStep g) t := by
  induction L with
  | nil => intro g; rfl
  | cons i L ih =>
    intro g
    rw [List.foldl_cons, List.foldl_cons, vcycleDownStep_setTol, ih]

theorem foldl_vcycleUpStep_setTol (t : ℚ) (L : List ℕ) :
    ∀ g : CpuGridData,
      L.foldl CpuSolver.vcycleUpStep (setTol g t) =
        setTol (L.foldl CpuSolver.vcycleUpStep g) t := by
  induction L with
  | nil => intro g; rfl
  | cons i L ih =>
    intro g
    rw [List.foldl_cons, List.foldl_cons, vcycleUpStep_setTol, ih]

theorem vcycle_setTol (g : CpuGridData) (t : ℚ) :
    CpuSolver.vcycle (setTol g t) =
      (setTol (CpuSolver.vcycle g).1 t, (CpuSolver.vcycle g).2) := by
  rw [CpuSolver.vcycle, CpuSolver.vcycle]
  simp only [setTol_numLevels, foldl_vcycleDownStep_setTol, setTol_preSmoothing,
    setTol_postSmoothing, jacobi_setTol, jacobi_numLevels,
    foldl_vcycleUpStep_setTol, compResidual_setTol]

theorem solveLoop_setTol (g : CpuGridData) (t : ℚ) (n : ℕ) :
    CpuSolver.solveLoop (setTol g t) n =
      (setTol (CpuSolver.solveLoop g n).1 t, (CpuSolver.solveLoop g n).2) := by
  induction n generalizing g with
  | zero => rfl
  | succ m ih =>
    rw [CpuSolver.solveLoop, CpuSolver.solveLoop]
    simp only [vcycle_setTol, ih]

theorem solve_setTol (g : CpuGridData) (t : ℚ) :
    CpuSolver.solve (setTol g t) =
      (setTol (CpuSolver.solve g).1 t, (CpuSolver.solve g).2) := by
  rw [CpuSolver.solve, CpuSolver.solve]
  simp only [compResidual_setTol, setTol_maxiter, solveLoop_setTol]

theorem solveLoop_length (g : CpuGridData) (n : ℕ) :
    (CpuSolver.solveLoop g n).2.length = n := by
  induction n generalizing g with
  | zero => rfl
  | succ m ih =>
    rw [CpuSolver.solveLoop]
    simp only [List.length_cons, ih]

/-- C8: `solve` performs exactly `maxiter` V-cycles with no early exit:
the emitted norm sequence has length `maxiter + 1` (the initial residual
plus one norm per iteration), each iteration runs one `vcycle` on the
current state and emits its returned norm, and the whole run is
independent of the configured tolerance `tol` (changing `tol` changes
nothing but the stored `tol` itself). -/
theorem solve_exactly_maxiter_ignores_tol (g : CpuGridData) (t : ℚ) :
    (CpuSolver.solve g).2.length = g.maxiter + 1 ∧
      (CpuSolver.solve g).2 =
        (CpuSolver.compResidual g 0).2 ::
          (CpuSolver.solveLoop (CpuSolver.compResidual g 0).1 g.maxiter).2 ∧
      (∀ (g0 : CpuGridData) (n : ℕ),
        CpuSolver.solveLoop g0 (n + 1) =
          ((CpuSolver.solveLoop (CpuSolver.vcycle g0).1 n).1,
            (CpuSolver.vcycle g0).2 ::
              (CpuSolver.solveLoop (CpuSolver.vcycle g0).1 n).2)) ∧
      CpuSolver.solve (setTol g t) =
        (setTol (CpuSolver.solve g).1 t, (CpuSolver.solve g).2) := by
  refine ⟨?_, rfl, fun g0 n => rfl, solve_setTol g t⟩
  show ((CpuSolver.solveLoop (CpuSolver.compResidual g 0).1 g.maxiter).2.length + 1)
    = g.maxiter + 1
  rw [solveLoop_length]

/-- A halo (ghost) cell of a level of interior extent `d`: a buffer cell
(coordinates within `[0, dᵢ+1]`) with some coordinate equal to `0` or
`dᵢ+1`. -/
def isHalo (d : ℕ × ℕ × ℕ) (x y z : ℤ) : Prop :=
  (0 ≤ x ∧ x ≤ (d.1 : ℤ) + 1) ∧ (0 ≤ y ∧ y ≤ (d.2.1 : ℤ) + 1) ∧
    (0 ≤ z ∧ z ≤ (d.2.2 : ℤ) + 1) ∧
    (x = 0 ∨ x = (d.1 : ℤ) + 1 ∨ y = 0 ∨ y = (d.2.1 : ℤ) + 1 ∨ z = 0 ∨
      z = (d.2.2 : ℤ) + 1)

/-- All halo cells of a field of interior extent `d` are zero. -/
def ZeroHaloField (d : ℕ × ℕ × ℕ) (F : Field3) : Prop :=
  ∀ x y z : ℤ, isHalo d x y z → F x y z = 0

/-- All halo cells of every field of a level are zero. -/
def ZeroHaloLevel (lvl : LevelData) : Prop :=
  ZeroHaloField lvl.levelDim lvl.v ∧ ZeroHaloField lvl.levelDim lvl.f ∧
    ZeroHaloField lvl.levelDim lvl.r ∧ ZeroHaloField lvl.levelDim lvl.e ∧
    ZeroHaloField lvl.levelDim lvl.restV

/-- All halo cells on every level of the hierarchy are zero. -/
def ZeroHalos (g : CpuGridData) : Prop :=
  ∀ l : ℕ, l < g.numLevels → ZeroHaloLevel (g.getLevel l)

/-- Well-formed hierarchy geometry.  Modelled from the spec: the level
construction (`CpuGridData.cpp`) is not among the sources; spec §3 states
that each successive level's extent is `((Nx-1)/2, (Ny-1)/2, (Nz-1)/2)`
interior cells. -/
def WellFormed (g : CpuGridData) : Prop :=
  ∀ l : ℕ, l + 1 < g.numLevels →
    (g.getLevel (l + 1)).levelDim.1 = ((g.getLevel l).levelDim.1 - 1) / 2 ∧
      (g.getLevel (l + 1)).levelDim.2.1 =
        ((g.getLevel l).levelDim.2.1 - 1) / 2 ∧
      (g.getLevel (l + 1)).levelDim.2.2 =
        ((g.getLevel l).levelDim.2.2 - 1) / 2

theorem isHalo_not_interior (d : ℕ × ℕ × ℕ) (x y z : ℤ) (h : isHalo d x y z) :
    ¬ isInterior d x y z := by
  unfold isHalo at h
  unfold isInterior
  omega

theorem ZeroHalos_setLevel (g : CpuGridData) (l : ℕ) (L : LevelData)
    (h : ZeroHalos g) (hL : l < g.numLevels → ZeroHaloLevel L) :
    ZeroHalos (g.setLevel l L) := by
  intro k hk
  rw [setLevel_numLevels] at hk
  by_cases hkl : k = l
  · subst hkl
    rw [CpuGridData.getLevel_setLevel_same]
    exact hL hk
  · rw [CpuGridData.getLevel_setLevel_ne g l k L hkl]
    exact h k hk

theorem ZeroHaloField_residualField (g : CpuGridData) (lvl : LevelData)
    (h : ZeroHaloField lvl.levelDim lvl.r) :
    ZeroHaloField lvl.levelDim (CpuSolver.residualField g lvl) := by
  intro x y z hh
  rw [CpuSolver.residualField, if_neg (isHalo_not_interior _ _ _ _ hh)]
  exact h x y z hh

theorem ZeroHaloField_jacobiUpdateField (g : CpuGridData) (lvl : LevelData)
    (h : ZeroHaloField lvl.levelDim lvl.v) :
    ZeroHaloField lvl.levelDim (CpuSolver.jacobiUpdateField g lvl) := by
  intro x y z hh
  rw [CpuSolver.jacobiUpdateField, if_neg (isHalo_not_interior _ _ _ _ hh)]
  exact h x y z hh

theorem ZeroHaloField_applyStencilField (st : Stencil) (gam : ℚ) (ex : ℚ → ℚ)
    (d : ℕ × ℕ × ℕ) (hq : ℚ) (vIn rOld : Field3)
    (h : ZeroHaloField d rOld) :
    ZeroHaloField d (CpuSolver.applyStencilField st gam ex d hq vIn rOld) := by
  intro x y z hh
  rw [CpuSolver.applyStencilField, if_neg (isHalo_not_interior _ _ _ _ hh)]
  exact h x y z hh

theorem ZeroHaloField_restrict3 (d : ℕ × ℕ × ℕ) (fine coarse : Field3)
    (h : ZeroHaloField d coarse) :
    ZeroHaloField d
      (CpuSolver.restrict3 (d.1 + 2) (d.2.1 + 2) (d.2.2 + 2) fine coarse) := by
  intro x y z hh
  rw [CpuSolver.restrict3, if_neg ?hg]
  · exact h x y z hh
  · unfold isHalo at hh
    push_cast
    omega

theorem ZeroHaloField_fill0 (d : ℕ × ℕ × ℕ) : ZeroHaloField d (Field3.fill 0) :=
  fun _ _ _ _ => rfl

theorem ZeroHaloField_add (d : ℕ × ℕ × ℕ) (a b : Field3)
    (ha : ZeroHaloField d a) (hb : ZeroHaloField d b) :
    ZeroHaloField d (Field3.add a b) := by
  intro x y z hh
  show a x y z + b x y z = 0
  rw [ha x y z hh, hb x y z hh, add_zero]

theorem ZeroHaloField_sub (d : ℕ × ℕ × ℕ) (a b : Field3)
    (ha : ZeroHaloField d a) (hb : ZeroHaloField d b) :
    ZeroHaloField d (Field3.sub a b) := by
  intro x y z hh
  show a x y z - b x y z = 0
  rw [ha x y z hh, hb x y z hh, sub_zero]

theorem ZeroHaloField_injectPass (df dc : ℕ × ℕ × ℕ)
    (h1 : dc.1 = (df.1 - 1) / 2) (h2 : dc.2.1 = (df.2.1 - 1) / 2)
    (h3 : dc.2.2 = (df.2.2 - 1) / 2) (coarse e : Field3)
    (hc : ZeroHaloField dc coarse) (he : ZeroHaloField df e) :
    ZeroHaloField df
      (CpuSolver.injectPass (df.1 + 2) (df.2.1 + 2) (df.2.2 + 2) coarse e) := by
  intro x y z hh
  rw [CpuSolver.injectPass]
  split
  · apply hc
    unfold isHalo at hh ⊢
    push_cast at *
    omega
  · exact he x y z hh

theorem ZeroHaloField_xPass (df : ℕ × ℕ × ℕ) (e : Field3)
    (he : ZeroHaloField df e) :
    ZeroHaloField df
      (CpuSolver.xPass (df.1 + 2) (df.2.1 + 2) (df.2.2 + 2) e) := by
  intro x y z hh
  rw [CpuSolver.xPass]
  split
  · have hm : e (x - 1) y z = 0 := by
      apply he
      unfold isHalo at hh ⊢
      push_cast at *
      omega
    have hp : e (x + 1) y z = 0 := by
      apply he
      unfold isHalo at hh ⊢
      push_cast at *
      omega
    rw [hm, hp]
    norm_num
  · exact he x y z hh

theorem ZeroHaloField_yPass (df : ℕ × ℕ × ℕ) (e : Field3)
    (he : ZeroHaloField df e) :
    ZeroHaloField df
      (CpuSolver.yPass (df.1 + 2) (df.2.1 + 2) (df.2.2 + 2) e) := by
  intro x y z hh
  rw [CpuSolver.yPass]
  split
  · have hm : e x (y - 1) z = 0 := by
      apply he
      unfold isHalo at hh ⊢
      push_cast at *
      omega
    have hp : e x (y + 1) z = 0 := by
      apply he
      unfold isHalo at hh ⊢
      push_cast at *
      omega
    rw [hm, hp]
    norm_num
  · exact he x y z hh

theorem ZeroHaloField_zPass (df : ℕ × ℕ × ℕ) (e : Field3)
    (he : ZeroHaloField df e) :
    ZeroHaloField df
      (CpuSolver.zPass (df.1 + 2) (df.2.1 + 2) (df.2.2 + 2) e) := by
  intro x y z hh
  rw [CpuSolver.zPass]
  split
  · have hm : e x y (z - 1) = 0 := by
      apply he
      unfold isHalo at hh ⊢
      push_cast at *
      omega
    have hp : e x y (z + 1) = 0 := by
      apply he
      unfold isHalo at hh ⊢
      push_cast at *
      omega
    rw [hm, hp]
    norm_num
  · exact he x y z hh

theorem ZeroHaloField_interpolate3 (df dc : ℕ × ℕ × ℕ)
    (h1 : dc.1 = (df.1 - 1) / 2) (h2 : dc.2.1 = (df.2.1 - 1) / 2)
    (h3 : dc.2.2 = (df.2.2 - 1) / 2) (coarse e : Field3)
    (hc : ZeroHaloField dc coarse) (he : ZeroHaloField df e) :
    ZeroHaloField df
      (CpuSolver.interpolate3 (df.1 + 2) (df.2.1 + 2) (df.2.2 + 2) coarse e) :=
  ZeroHaloField_zPass df _ (ZeroHaloField_yPass df _ (ZeroHaloField_xPass df _
    (ZeroHaloField_injectPass df dc h1 h2 h3 coarse e hc he)))

theorem ZeroHalos_compResidual (g : CpuGridData) (l : ℕ) (h : ZeroHalos g) :
    ZeroHalos (CpuSolver.compResidual g l).1 := by
  rw [compResidual_fst]
  apply ZeroHalos_setLevel g l _ h
  intro hl
  obtain ⟨hv, hf, hr, he, hrv⟩ := h l hl
  exact ⟨hv, hf, ZeroHaloField_residualField g _ hr, he, hrv⟩

theorem ZeroHalos_jacobiSweep (g : CpuGridData) (l : ℕ) (h : ZeroHalos g) :
    ZeroHalos (CpuSolver.jacobiSweep g l) := by
  have h1 := ZeroHalos_compResidual g l h
  unfold CpuSolver.jacobiSweep
  apply ZeroHalos_setLevel _ l _ h1
  intro hl
  obtain ⟨hv, hf, hr, he, hrv⟩ := h1 l hl
  exact ⟨ZeroHaloField_jacobiUpdateField _ _ hv, hf, hr, he, hrv⟩

theorem ZeroHalos_jacobi (g : CpuGridData) (l n : ℕ) (h : ZeroHalos g) :
    ZeroHalos (CpuSolver.jacobi g l n) := by
  induction n with
  | zero => exact h
  | succ m ih => exact ZeroHalos_jacobiSweep _ l ih

theorem ZeroHalos_applyStencil (g : CpuGridData) (l : ℕ) (vIn : Field3)
    (h : ZeroHalos g) : ZeroHalos (CpuSolver.applyStencil g l vIn) := by
  unfold CpuSolver.applyStencil
  apply ZeroHalos_setLevel g l _ h
  intro hl
  obtain ⟨hv, hf, hr, he, hrv⟩ := h l hl
  exact ⟨hv, hf, ZeroHaloField_applyStencilField _ _ _ _ _ _ _ hr, he, hrv⟩

theorem ZeroHalos_interpolate (g : CpuGridData) (l : ℕ) (h : ZeroHalos g)
    (hW : WellFormed g) (hl : l + 1 < g.numLevels) :
    ZeroHalos (CpuSolver.interpolate g l) := by
  unfold CpuSolver.interpolate
  apply ZeroHalos_setLevel g l _ h
  intro _
  obtain ⟨hv, hf, hr, he, hrv⟩ := h l (by omega)
  obtain ⟨hcv, _, _, _, _⟩ := h (l + 1) hl
  obtain ⟨w1, w2, w3⟩ := hW l hl
  exact ⟨hv, hf, hr,
    ZeroHaloField_interpolate3 (g.getLevel l).levelDim
      (g.getLevel (l + 1)).levelDim w1 w2 w3 _ _ hcv he, hrv⟩

theorem ZeroHalos_vcycleDownStep (g : CpuGridData) (i : ℕ) (h : ZeroHalos g) :
    ZeroHalos (CpuSolver.vcycleDownStep g i) := by
  have hZ2 : ZeroHalos (CpuSolver.compResidual
      (CpuSolver.jacobi g i g.preSmoothing) i).1 :=
    ZeroHalos_compResidual _ i (ZeroHalos_jacobi g i g.preSmoothing h)
  simp only [CpuSolver.vcycleDownStep]
  split
  · apply ZeroHalos_setLevel
    · apply ZeroHalos_setLevel _ _ _ hZ2
      intro hl
      obtain ⟨hv, hf, hr, he, hrv⟩ := hZ2 (i + 1) hl
      exact ⟨hv, ZeroHaloField_restrict3 _ _ _ hf, hr, he, hrv⟩
    · intro hl
      rw [CpuGridData.getLevel_setLevel_same]
      simp only [setLevel_numLevels] at hl
      obtain ⟨hv, hf, hr, he, hrv⟩ := hZ2 (i + 1) hl
      exact ⟨ZeroHaloField_fill0 _, ZeroHaloField_restrict3 _ _ _ hf, hr, he,
        hrv⟩
  · apply ZeroHalos_setLevel
    · apply ZeroHalos_applyStencil
      apply ZeroHalos_setLevel
      · apply ZeroHalos_setLevel _ _ _ hZ2
        intro hl
        obtain ⟨hv, hf, hr, he, hrv⟩ := hZ2 (i + 1) hl
        exact ⟨hv, ZeroHaloField_restrict3 _ _ _ hf, hr, he, hrv⟩
      · intro hl
        rw [CpuGridData.getLevel_setLevel_same]
        simp only [setLevel_numLevels] at hl
        obtain ⟨hv, hf, hr, he, hrv⟩ := hZ2 (i + 1) hl
        exact ⟨ZeroHaloField_restrict3 _ _ _ hv,
          ZeroHaloField_restrict3 _ _ _ hf, hr, he,
          ZeroHaloField_restrict3 _ _ _ hrv⟩
    · intro hl
      simp only [CpuSolver.applyStencil, CpuGridData.getLevel_setLevel_same,
        setLevel_numLevels] at hl ⊢
      obtain ⟨hv, hf, hr, he, hrv⟩ := hZ2 (i + 1) (by simpa using hl)
      refine ⟨ZeroHaloField_restrict3 _ _ _ hv,
        ZeroHaloField_add _ _ _ (ZeroHaloField_restrict3 _ _ _ hf)
          (ZeroHaloField_applyStencilField _ _ _ _ _ _ _ hr),
        ZeroHaloField_applyStencilField _ _ _ _ _ _ _ hr, he,
        ZeroHaloField_restrict3 _ _ _ hrv⟩

theorem getLevel_setLevel_levelDim (g : CpuGridData) (l k : ℕ) (L : LevelData)
    (hd : L.levelDim = (g.getLevel l).levelDim) :
    ((g.setLevel l L).getLevel k).levelDim = (g.getLevel k).levelDim := by
  by_cases h : k = l
  · subst h; rw [CpuGridData.getLevel_setLevel_same, hd]
  · rw [CpuGridData.getLevel_setLevel_ne _ _ _ _ h]

theorem compResidual_levelDim (g : CpuGridData) (l k : ℕ) :
    (((CpuSolver.compResidual g l).1).getLevel k).levelDim =
      (g.getLevel k).levelDim := by
  rw [compResidual_fst, getLevel_setLevel_levelDim _ _ _ _ (by rfl)]

@[simp] theorem applyStencil_numLevels (g : CpuGridData) (l : ℕ) (vIn : Field3) :
    (CpuSolver.applyStencil g l vIn).numLevels = g.numLevels := rfl

@[simp] theorem interpolate_numLevels (g : CpuGridData) (l : ℕ) :
    (CpuSolver.interpolate g l).numLevels = g.numLevels := rfl

theorem applyStencil_levelDim (g : CpuGridData) (l k : ℕ) (vIn : Field3) :
    ((CpuSolver.applyStencil g l vIn).getLevel k).levelDim =
      (g.getLevel k).levelDim := by
  rw [CpuSolver.applyStencil, getLevel_setLevel_levelDim _ _ _ _ (by rfl)]

theorem interpolate_levelDim (g : CpuGridData) (l k : ℕ) :
    ((CpuSolver.interpolate g l).getLevel k).levelDim =
      (g.getLevel k).levelDim := by
  rw [CpuSolver.interpolate, getLevel_setLevel_levelDim _ _ _ _ (by rfl)]

theorem vcycleDownStep_numLevels (g : CpuGridData) (i : ℕ) :
    (CpuSolver.vcycleDownStep g i).numLevels = g.numLevels := by
  simp only [CpuSolver.vcycleDownStep]
  split <;>
    simp [jacobi_numLevels]

theorem vcycleDownStep_levelDim (g : CpuGridData) (i k : ℕ) :
    ((CpuSolver.vcycleDownStep g i).getLevel k).levelDim =
      (g.getLevel k).levelDim := by
  simp only [CpuSolver.vcycleDownStep]
  split
  · rw [getLevel_setLevel_levelDim _ _ _ _ (by rfl),
      getLevel_setLevel_levelDim _ _ _ _ (by rfl), compResidual_levelDim,
      jacobi_levelDim]
  · simp only [CpuSolver.applyStencil]
    rw [getLevel_setLevel_levelDim _ _ _ _ (by rfl),
      getLevel_setLevel_levelDim _ _ _ _ (by rfl),
      getLevel_setLevel_levelDim _ _ _ _ (by rfl),
      getLevel_setLevel_levelDim _ _ _ _ (by rfl), compResidual_levelDim,
      jacobi_levelDim]

theorem vcycleUpStep_numLevels (g : CpuGridData) (i : ℕ) :
    (CpuSolver.vcycleUpStep g i).numLevels = g.numLevels := by
  simp only [CpuSolver.vcycleUpStep]
  split <;> simp [jacobi_numLevels]

theorem vcycleUpStep_levelDim (g : CpuGridData) (i k : ℕ) :
    ((CpuSolver.vcycleUpStep g i).getLevel k).levelDim =
      (g.getLevel k).levelDim := by
  simp only [CpuSolver.vcycleUpStep]
  rw [jacobi_levelDim, getLevel_setLevel_levelDim _ _ _ _ (by rfl),
    interpolate_levelDim]
  split
  · rfl
  · rw [getLevel_setLevel_levelDim _ _ _ _ (by rfl)]

theorem WellFormed_congr (g g' : CpuGridData) (hn : g'.numLevels = g.numLevels)
    (hd : ∀ k, (g'.getLevel k).levelDim = (g.getLevel k).levelDim)
    (hW : WellFormed g) : WellFormed g' := by
  intro k hk
  rw [hn] at hk
  rw [hd, hd]
  exact hW k hk

theorem ZeroHalos_vcycleUpStep (g : CpuGridData) (i : ℕ) (h : ZeroHalos g)
    (hW : WellFormed g) (hi : 1 ≤ i) (hin : i < g.numLevels) :
    ZeroHalos (CpuSolver.vcycleUpStep g i) := by
  simp only [CpuSolver.vcycleUpStep]
  split
  · have hZ2 : ZeroHalos (CpuSolver.interpolate g (i - 1)) :=
      ZeroHalos_interpolate g (i - 1) h hW (by omega)
    apply ZeroHalos_jacobi
    apply ZeroHalos_setLevel _ _ _ hZ2
    intro hl
    obtain ⟨hv, hf, hr, he, hrv⟩ := hZ2 (i - 1) (by simpa using hl)
    exact ⟨ZeroHaloField_add _ _ _ hv he, hf, hr, he, hrv⟩
  · have hZ1 : ZeroHalos (g.setLevel i
        { g.getLevel i with
          v := Field3.sub ((g.getLevel i).v) ((g.getLevel i).restV) }) := by
      apply ZeroHalos_setLevel _ _ _ h
      intro hl
      obtain ⟨hv, hf, hr, he, hrv⟩ := h i hl
      exact ⟨ZeroHaloField_sub _ _ _ hv hrv, hf, hr, he, hrv⟩
    have hW1 : WellFormed (g.setLevel i
        { g.getLevel i with
          v := Field3.sub ((g.getLevel i).v) ((g.getLevel i).restV) }) :=
      WellFormed_congr _ _ (by simp)
        (fun k => getLevel_setLevel_levelDim _ _ _ _ (by rfl)) hW
    have hZ2 : ZeroHalos (CpuSolver.interpolate (g.setLevel i
        { g.getLevel i with
          v := Field3.sub ((g.getLevel i).v) ((g.getLevel i).restV) })
        (i - 1)) :=
      ZeroHalos_interpolate _ (i - 1) hZ1 hW1 (by simp only [setLevel_numLevels]; omega)
    apply ZeroHalos_jacobi
    apply ZeroHalos_setLevel _ _ _ hZ2
    intro hl
    obtain ⟨hv, hf, hr, he, hrv⟩ := hZ2 (i - 1) (by simpa using hl)
    exact ⟨ZeroHaloField_add _ _ _ hv he, hf, hr, he, hrv⟩

theorem ZeroHalos_foldl_down (L : List ℕ) :
    ∀ g : CpuGridData, ZeroHalos g → WellFormed g →
      ZeroHalos (L.foldl CpuSolver.vcycleDownStep g) ∧
        WellFormed (L.foldl CpuSolver.vcycleDownStep g) ∧
        (L.foldl CpuSolver.vcycleDownStep g).numLevels = g.numLevels := by
  induction L with
  | nil => exact fun g h hW => ⟨h, hW, rfl⟩
  | cons a L ih =>
    intro g h hW
    rw [List.foldl_cons]
    have hW' : WellFormed (CpuSolver.vcycleDownStep g a) :=
      WellFormed_congr _ _ (vcycleDownStep_numLevels g a)
        (vcycleDownStep_levelDim g a) hW
    obtain ⟨z, w, n⟩ := ih _ (ZeroHalos_vcycleDownStep g a h) hW'
    exact ⟨z, w, by rw [n, vcycleDownStep_numLevels]⟩

theorem ZeroHalos_foldl_up (N : ℕ) (L : List ℕ) :
    (∀ i ∈ L, 1 ≤ i ∧ i < N) →
      ∀ g : CpuGridData, g.numLevels = N → ZeroHalos g → WellFormed g →
        ZeroHalos (L.foldl CpuSolver.vcycleUpStep g) := by
  induction L with
  | nil => exact fun _ g _ h _ => h
  | cons a L ih =>
    intro hL g hn h hW
    rw [List.foldl_cons]
    have ha := hL a (List.mem_cons_self a L)
    have hW' : WellFormed (CpuSolver.vcycleUpStep g a) :=
      WellFormed_congr _ _ (vcycleUpStep_numLevels g a)
        (vcycleUpStep_levelDim g a) hW
    exact ih (fun i hi => hL i (List.mem_cons_of_mem a hi)) _
      (by rw [vcycleUpStep_numLevels, hn])
      (ZeroHalos_vcycleUpStep g a h hW ha.1 (by omega)) hW'

theorem ZeroHalos_vcycle (g : CpuGridData) (h : ZeroHalos g)
    (hW : WellFormed g) : ZeroHalos (CpuSolver.vcycle g).1 := by
  obtain ⟨zd, wd, nd⟩ := ZeroHalos_foldl_down (List.range (g.numLevels - 1)) g h hW
  rw [CpuSolver.vcycle]
  apply ZeroHalos_compResidual
  apply ZeroHalos_foldl_up g.numLevels
  · intro i hi
    simp only [List.mem_reverse, List.mem_map, List.mem_range] at hi
    obtain ⟨j, hj, rfl⟩ := hi
    rw [jacobi_numLevels, nd] at hj
    omega
  · rw [jacobi_numLevels, nd]
  · exact ZeroHalos_jacobi _ _ _ zd
  · exact WellFormed_congr _ _ (jacobi_numLevels _ _ _)
      (fun k => jacobi_levelDim _ _ k _) wd

/-- C6: starting from a state in which all halo cells of every field on
every level are zero (and a hierarchy with the spec's coarsening
geometry), every engine operation — `compResidual`, `jacobi`,
`applyStencil`, `restrict`, `interpolate`, and a full `vcycle` — leaves
all halo cells on every level zero. -/
theorem engine_ops_preserve_zero_halos (g : CpuGridData) (hZ : ZeroHalos g)
    (hW : WellFormed g) :
    (∀ l : ℕ, ZeroHalos (CpuSolver.compResidual g l).1) ∧
      (∀ l n : ℕ, ZeroHalos (CpuSolver.jacobi g l n)) ∧
      (∀ (l : ℕ) (vIn : Field3), ZeroHalos (CpuSolver.applyStencil g l vIn)) ∧
      (∀ (d : ℕ × ℕ × ℕ) (fine coarse : Field3), ZeroHaloField d coarse →
        ZeroHaloField d
          (CpuSolver.restrict3 (d.1 + 2) (d.2.1 + 2) (d.2.2 + 2) fine
            coarse)) ∧
      (∀ l : ℕ, l + 1 < g.numLevels → ZeroHalos (CpuSolver.interpolate g l)) ∧
      ZeroHalos (CpuSolver.vcycle g).1 := by
  refine ⟨fun l => ZeroHalos_compResidual g l hZ,
    fun l n => ZeroHalos_jacobi g l n hZ,
    fun l vIn => ZeroHalos_applyStencil g l vIn hZ,
    fun d fine coarse hc => ZeroHaloField_restrict3 d fine coarse hc,
    fun l hl => ZeroHalos_interpolate g l hZ hW hl,
    ZeroHalos_vcycle g hZ hW⟩

/-- A concrete all-zero fine level (interior extent 1×1×1). -/
def zeroFineLevel : LevelData where
  levelDim := (1, 1, 1)
  h := 1 / 2
  v := Field3.fill 0
  f := Field3.fill 0
  r := Field3.fill 0
  e := Field3.fill 0
  restV := Field3.fill 0

/-- A concrete all-zero coarse level (interior extent 0×0×0). -/
def zeroCoarseLevel : LevelData where
  levelDim := (0, 0, 0)
  h := 1
  v := Field3.fill 0
  f := Field3.fill 0
  r := Field3.fill 0
  e := Field3.fill 0
  restV := Field3.fill 0

/-- A concrete two-level grid whose fields are identically zero. -/
def zeroGrid : CpuGridData where
  maxiter := 1
  tol := 1 / 10
  isLinear := true
  preSmoothing := 1
  postSmoothing := 1
  omega := 1
  gamma := 1
  stencil := { values := [6, -1], offsets := [(0, 0, 0), (1, 0, 0)] }
  numLevels := 2
  levels := fun i => if i = 0 then zeroFineLevel else zeroCoarseLevel
  expf := fun q => 1 + q
  sqrtf := fun q => q

theorem ZeroHalos_zeroGrid : ZeroHalos zeroGrid := by
  intro l _
  by_cases h : l = 0 <;>
    simp only [zeroGrid, CpuGridData.getLevel, h, if_true, if_false,
      reduceIte] <;>
    exact ⟨fun _ _ _ _ => rfl, fun _ _ _ _ => rfl, fun _ _ _ _ => rfl,
      fun _ _ _ _ => rfl, fun _ _ _ _ => rfl⟩

theorem WellFormed_zeroGrid : WellFormed zeroGrid := by
  intro l hl
  have h0 : l = 0 := by
    have : zeroGrid.numLevels = 2 := rfl
    omega
  subst h0
  exact ⟨rfl, rfl, rfl⟩

/-- C6 witness: the property instantiated on the all-zero grid `zeroGrid`;
in particular a full V-cycle keeps all halo cells zero. -/
theorem engine_ops_preserve_zero_halos_witness :
    ZeroHalos zeroGrid ∧ WellFormed zeroGrid ∧
      ZeroHalos (CpuSolver.vcycle zeroGrid).1 :=
  ⟨ZeroHalos_zeroGrid, WellFormed_zeroGrid,
    (engine_ops_preserve_zero_halos zeroGrid ZeroHalos_zeroGrid
      WellFormed_zeroGrid).2.2.2.2.2⟩
